import Mathlib

/-!
Verification of the code-generation and register-allocation pipeline of the
`building-a-compiler` repository.

The abstract-machine module (`Asm.py`: instruction classes, `Program`,
instruction execution) is not part of the sources; only its callers are.
Everything in the `Asm` section below is therefore modelled from the
specification (instruction variants, register file, machine transition),
while the expression model, the code generators, the variable renamers and
the register allocator are translated from the Python sources
(`RecursiveFunctions/Expression.py`, `ControlFlow/Visitor.py`,
`CodeGenForRegisterAllocation/Visitor.py`, `CodeGenForRegisterAllocation/Optimizer.py`,
`CodeGenFunctions/Visitor.py`).
-/

namespace BuildingACompiler

/-- Modelled from the spec: an Instruction is a tagged variant over the
fourteen opcode forms listed in the data model (immediate binary, register
binary, memory load/store, branch, jumps).  Operand fields hold register or
symbolic-variable names (strings) or literal integers; branch/jump targets
are instruction indices, `none` while still unpatched. -/
inductive Instr : Type
  | addi (rd rs1 : String) (imm : Int)
  | xori (rd rs1 : String) (imm : Int)
  | slti (rd rs1 : String) (imm : Int)
  | add (rd rs1 rs2 : String)
  | sub (rd rs1 rs2 : String)
  | mul (rd rs1 rs2 : String)
  | div (rd rs1 rs2 : String)
  | xor (rd rs1 rs2 : String)
  | slt (rd rs1 rs2 : String)
  | lw (rs1 : String) (offset : Int) (reg : String)
  | sw (rs1 : String) (offset : Int) (reg : String)
  | beq (rs1 rs2 : String) (lab : Option Nat)
  | jal (rd : String) (lab : Option Nat)
  | jalr (rd rs : String) (offset : Int)
  deriving DecidableEq, Repr

/-- Modelled from the spec: the variable table of a `Program`, mapping a
register or symbolic-variable name to its current value (absent names are
unbound and reading them is a fault). -/
def Env : Type := String → Option Int

/-- Raw update of the variable table (Python `dict` assignment). -/
def Env.set (e : Env) (x : String) (v : Int) : Env :=
  fun n => if n = x then some v else e n

/-- Modelled from the spec: reading a value; the register `x0` is hard-wired
to zero. -/
def getVal (e : Env) (x : String) : Option Int :=
  if x = "x0" then some 0 else e x

/-- Modelled from the spec: writing a value; writes to the read-only
register `x0` are discarded. -/
def setVal (e : Env) (x : String) (v : Int) : Env :=
  if x = "x0" then e else e.set x v

/-- Modelled from the spec: the initial variable table of a fresh `Program`,
holding only the stack pointer `sp`, initialized to the memory size. -/
def initEnv (memSize : Int) : Env :=
  fun n => if n = "sp" then some memSize else none

/-- Modelled from the spec: machine state while executing a program — the
variable table, the flat memory array (modelled as a total map over integer
addresses, initially zero), and the program counter. -/
structure MState where
  env : Env
  mem : Int → Int
  pc : Nat

/-- Functional update of one memory cell. -/
def memSet (m : Int → Int) (a v : Int) : Int → Int :=
  fun b => if b = a then v else m b

/-- Integer bitwise xor with two's-complement semantics, as in Python. -/
def pyXor (a b : Int) : Int := Int.xor a b

/-- Modelled from the spec: execute the single instruction at the program
counter.  Results `none` on a fault: reading an unbound name, dividing by
zero, branching or jumping to a still-unpatched (`none`) or negative
target, or fetching past the end of the program. -/
def instStep (P : List Instr) (s : MState) : Option MState :=
  match P[s.pc]? with
  | none => none
  | some i =>
    match i with
    | .addi rd rs1 imm =>
        (getVal s.env rs1).map fun a => ⟨setVal s.env rd (a + imm), s.mem, s.pc + 1⟩
    | .xori rd rs1 imm =>
        (getVal s.env rs1).map fun a => ⟨setVal s.env rd (pyXor a imm), s.mem, s.pc + 1⟩
    | .slti rd rs1 imm =>
        (getVal s.env rs1).map fun a =>
          ⟨setVal s.env rd (if a < imm then 1 else 0), s.mem, s.pc + 1⟩
    | .add rd rs1 rs2 => do
        let a ← getVal s.env rs1
        let b ← getVal s.env rs2
        some ⟨setVal s.env rd (a + b), s.mem, s.pc + 1⟩
    | .sub rd rs1 rs2 => do
        let a ← getVal s.env rs1
        let b ← getVal s.env rs2
        some ⟨setVal s.env rd (a - b), s.mem, s.pc + 1⟩
    | .mul rd rs1 rs2 => do
        let a ← getVal s.env rs1
        let b ← getVal s.env rs2
        some ⟨setVal s.env rd (a * b), s.mem, s.pc + 1⟩
    | .div rd rs1 rs2 => do
        let a ← getVal s.env rs1
        let b ← getVal s.env rs2
        if b = 0 then none
        else some ⟨setVal s.env rd (Int.fdiv a b), s.mem, s.pc + 1⟩
    | .xor rd rs1 rs2 => do
        let a ← getVal s.env rs1
        let b ← getVal s.env rs2
        some ⟨setVal s.env rd (pyXor a b), s.mem, s.pc + 1⟩
    | .slt rd rs1 rs2 => do
        let a ← getVal s.env rs1
        let b ← getVal s.env rs2
        some ⟨setVal s.env rd (if a < b then 1 else 0), s.mem, s.pc + 1⟩
    | .lw rs1 offset reg => do
        let a ← getVal s.env rs1
        some ⟨setVal s.env reg (s.mem (a + offset)), s.mem, s.pc + 1⟩
    | .sw rs1 offset reg => do
        let a ← getVal s.env rs1
        let v ← getVal s.env reg
        some ⟨s.env, memSet s.mem (a + offset) v, s.pc + 1⟩
    | .beq rs1 rs2 lab => do
        let a ← getVal s.env rs1
        let b ← getVal s.env rs2
        match lab with
        | none => none
        | some t => some ⟨s.env, s.mem, if a = b then t else s.pc + 1⟩
    | .jal rd lab =>
        match lab with
        | none => none
        | some t => some ⟨setVal s.env rd ((s.pc : Int) + 1), s.mem, t⟩
    | .jalr rd rs offset => do
        let a ← getVal s.env rs
        let t := a + offset
        if t < 0 then none
        else some ⟨setVal s.env rd ((s.pc : Int) + 1), s.mem, t.toNat⟩

/-- Modelled from the spec: run the machine until the program counter moves
past the end of the instruction list, spending one unit of fuel per
transition (generated programs only jump forward, so `P.length` fuel always
suffices for them). -/
def run (P : List Instr) : Nat → MState → Option MState
  | 0, s => if P.length ≤ s.pc then some s else none
  | fuel + 1, s =>
      if P.length ≤ s.pc then some s
      else (instStep P s).bind (run P fuel)

/-- Execute exactly `n` machine transitions. -/
def stepN (P : List Instr) : Nat → MState → Option MState
  | 0, s => some s
  | n + 1, s => (instStep P s).bind (stepN P n)

/-- Variable table and memory without a program counter, for reasoning about
straight-line (branch-free) instruction sequences. -/
structure Store where
  env : Env
  mem : Int → Int

/-- An instruction that never alters the control flow (everything except
branches and jumps). -/
def Instr.nonCtrl : Instr → Prop
  | .beq _ _ _ => False
  | .jal _ _ => False
  | .jalr _ _ _ => False
  | _ => True

instance (i : Instr) : Decidable i.nonCtrl := by
  cases i <;> simp [Instr.nonCtrl] <;> infer_instance

/-- Effect of one non-control instruction on the store (same register and
memory semantics as `instStep`, without the program counter). -/
def execS (i : Instr) (s : Store) : Option Store :=
  match i with
  | .addi rd rs1 imm =>
      (getVal s.env rs1).map fun a => ⟨setVal s.env rd (a + imm), s.mem⟩
  | .xori rd rs1 imm =>
      (getVal s.env rs1).map fun a => ⟨setVal s.env rd (pyXor a imm), s.mem⟩
  | .slti rd rs1 imm =>
      (getVal s.env rs1).map fun a =>
        ⟨setVal s.env rd (if a < imm then 1 else 0), s.mem⟩
  | .add rd rs1 rs2 => do
      let a ← getVal s.env rs1
      let b ← getVal s.env rs2
      some ⟨setVal s.env rd (a + b), s.mem⟩
  | .sub rd rs1 rs2 => do
      let a ← getVal s.env rs1
      let b ← getVal s.env rs2
      some ⟨setVal s.env rd (a - b), s.mem⟩
  | .mul rd rs1 rs2 => do
      let a ← getVal s.env rs1
      let b ← getVal s.env rs2
      some ⟨setVal s.env rd (a * b), s.mem⟩
  | .div rd rs1 rs2 => do
      let a ← getVal s.env rs1
      let b ← getVal s.env rs2
      if b = 0 then none else some ⟨setVal s.env rd (Int.fdiv a b), s.mem⟩
  | .xor rd rs1 rs2 => do
      let a ← getVal s.env rs1
      let b ← getVal s.env rs2
      some ⟨setVal s.env rd (pyXor a b), s.mem⟩
  | .slt rd rs1 rs2 => do
      let a ← getVal s.env rs1
      let b ← getVal s.env rs2
      some ⟨setVal s.env rd (if a < b then 1 else 0), s.mem⟩
  | .lw rs1 offset reg => do
      let a ← getVal s.env rs1
      some ⟨setVal s.env reg (s.mem (a + offset)), s.mem⟩
  | .sw rs1 offset reg => do
      let a ← getVal s.env rs1
      let v ← getVal s.env reg
      some ⟨s.env, memSet s.mem (a + offset) v⟩
  | .beq _ _ _ => none
  | .jal _ _ => none
  | .jalr _ _ _ => none

/-- Run a straight-line instruction sequence over a store, left to right. -/
def runS : List Instr → Store → Option Store
  | [], s => some s
  | i :: l, s => (execS i s).bind (runS l)

/-- The expression model, translated from `Expression.py`: one class per
variant (`Var`, `Bln`, `Num`, the binary and unary operators, `Let`,
`IfThenElse`, `Fn`, `App`). -/
inductive Expr : Type
  | var (identifier : String)
  | bln (b : Bool)
  | num (n : Int)
  | eql (left right : Expr)
  | andE (left right : Expr)
  | orE (left right : Expr)
  | add (left right : Expr)
  | sub (left right : Expr)
  | mul (left right : Expr)
  | div (left right : Expr)
  | mod (left right : Expr)
  | leq (left right : Expr)
  | lth (left right : Expr)
  | neg (exp : Expr)
  | notE (exp : Expr)
  | letE (identifier : String) (expDef expBody : Expr)
  | ifThenElse (cond e0 e1 : Expr)
  | fn (formal : String) (body : Expr)
  | app (function actual : Expr)
  deriving DecidableEq, Repr

/-- Fresh symbolic variable names, from `GenVisitor.next_var_name`: the
counter is incremented first, so the names are `v1`, `v2`, ... -/
def newVar (c : Nat) : String := "v" ++ Nat.repr (c + 1)

/-- The code generator of the register-allocation variant
(`CodeGenForRegisterAllocation/Visitor.py`, class `GenVisitor`): a purely
appending, straight-line lowering of the expression subset
{var, bln, num, eql, add, sub, mul, div, leq, lth, neg, not, let}.  The
result is the emitted instruction list, the name of the symbolic variable
holding the value, and the new variable counter; node variants without a
visiting method give `none`. -/
def genRA : Expr → Nat → Option (List Instr × String × Nat)
  | .var x, c => some ([], x, c)
  | .bln b, c =>
      some ([.addi (newVar c) "x0" (if b then 1 else 0)], newVar c, c + 1)
  | .num n, c => some ([.addi (newVar c) "x0" n], newVar c, c + 1)
  | .eql l r, c => do
      let (lc, lv, c1) ← genRA l c
      let (rc, rv, c2) ← genRA r c1
      some (lc ++ rc ++
        [.sub (newVar c2) lv rv,
         .slti (newVar (c2 + 1)) (newVar c2) 1,
         .slti (newVar (c2 + 2)) (newVar c2) 0,
         .sub (newVar (c2 + 3)) (newVar (c2 + 1)) (newVar (c2 + 2))],
        newVar (c2 + 3), c2 + 4)
  | .add l r, c => do
      let (lc, lv, c1) ← genRA l c
      let (rc, rv, c2) ← genRA r c1
      some (lc ++ rc ++ [.add (newVar c2) lv rv], newVar c2, c2 + 1)
  | .sub l r, c => do
      let (lc, lv, c1) ← genRA l c
      let (rc, rv, c2) ← genRA r c1
      some (lc ++ rc ++ [.sub (newVar c2) lv rv], newVar c2, c2 + 1)
  | .mul l r, c => do
      let (lc, lv, c1) ← genRA l c
      let (rc, rv, c2) ← genRA r c1
      some (lc ++ rc ++ [.mul (newVar c2) lv rv], newVar c2, c2 + 1)
  | .div l r, c => do
      let (lc, lv, c1) ← genRA l c
      let (rc, rv, c2) ← genRA r c1
      some (lc ++ rc ++ [.div (newVar c2) lv rv], newVar c2, c2 + 1)
  | .leq l r, c => do
      let (lc, lv, c1) ← genRA l c
      let (rc, rv, c2) ← genRA r c1
      some (lc ++ rc ++
        [.slt (newVar c2) rv lv, .xori (newVar (c2 + 1)) (newVar c2) 1],
        newVar (c2 + 1), c2 + 2)
  | .lth l r, c => do
      let (lc, lv, c1) ← genRA l c
      let (rc, rv, c2) ← genRA r c1
      some (lc ++ rc ++ [.slt (newVar c2) lv rv], newVar c2, c2 + 1)
  | .neg e, c => do
      let (ec, ev, c1) ← genRA e c
      some (ec ++ [.sub (newVar c1) "x0" ev], newVar c1, c1 + 1)
  | .notE e, c => do
      let (ec, ev, c1) ← genRA e c
      some (ec ++
        [.slt (newVar c1) "x0" ev,
         .slt (newVar (c1 + 1)) ev "x0",
         .add (newVar (c1 + 2)) (newVar c1) (newVar (c1 + 1)),
         .xori (newVar (c1 + 3)) (newVar (c1 + 2)) 1],
        newVar (c1 + 3), c1 + 4)
  | .letE x d b, c => do
      let (dc, dv, c1) ← genRA d c
      let (bc, bv, c2) ← genRA b (c1 + 1)
      some (dc ++ [.add x "x0" dv] ++ bc ++ [.add (newVar c1) "x0" bv],
        newVar c1, c2)
  | _, _ => none

/-- Modelled from the spec: the `Program` object threaded through code
generation — the growing instruction list plus the machine state (variable
table, memory, program counter) that `Program.eval` mutates. -/
structure Program where
  insts : List Instr
  env : Env
  mem : Int → Int
  pc : Nat

/-- Fill in the target field of a branch or jump instruction
(`set_target`). -/
def Instr.withTarget (i : Instr) (t : Nat) : Instr :=
  match i with
  | .beq a b _ => .beq a b (some t)
  | .jal d _ => .jal d (some t)
  | i => i

/-- Patch the instruction at `idx` with branch target `t`; out-of-range
indices leave the list unchanged. -/
def setTargetAt (l : List Instr) (idx t : Nat) : List Instr :=
  match l[idx]? with
  | some i => l.set idx (i.withTarget t)
  | none => l

/-- Append one instruction (`Program.add_inst`). -/
def Program.addInst (p : Program) (i : Instr) : Program :=
  { p with insts := p.insts ++ [i] }

/-- Modelled from the spec: `Program.eval` runs the machine from the
program's current counter until it moves past the end of the instruction
list, updating the variable table, memory and counter in place. -/
def Program.eval (p : Program) : Option Program :=
  (run p.insts p.insts.length ⟨p.env, p.mem, p.pc⟩).map fun s =>
    { p with env := s.env, mem := s.mem, pc := s.pc }

/-- The code generator of the control-flow variant
(`ControlFlow/Visitor.py`, class `GenVisitor`).  And/Or/IfThenElse use the
branch-then-patch pattern; `visit_let` generates its definition, runs
`Program.eval` on the program built so far, reads the definition's value
and writes it into the variable table under the let identifier, then
generates the body.  Node variants without a visiting method (`mod`, `fn`,
`app`) give `none`, as does a fault during the let evaluation. -/
def genCF : Expr → Program → Nat → Option (String × Program × Nat)
  | .var x, p, c => some (x, p, c)
  | .bln b, p, c =>
      some (newVar c, p.addInst (.addi (newVar c) "x0" (if b then 1 else 0)), c + 1)
  | .num n, p, c => some (newVar c, p.addInst (.addi (newVar c) "x0" n), c + 1)
  | .eql l r, p, c => do
      let (lv, p1, c1) ← genCF l p c
      let (rv, p2, c2) ← genCF r p1 c1
      let p3 := (((p2.addInst (.sub (newVar c2) lv rv)).addInst
        (.slti (newVar (c2 + 1)) (newVar c2) 1)).addInst
        (.slti (newVar (c2 + 2)) (newVar c2) 0)).addInst
        (.sub (newVar (c2 + 3)) (newVar (c2 + 1)) (newVar (c2 + 2)))
      some (newVar (c2 + 3), p3, c2 + 4)
  | .andE l r, p, c => do
      let (lv, p1, c1) ← genCF l p c
      let res := newVar c1
      let bIdx := p1.insts.length
      let p2 := p1.addInst (.beq lv "x0" none)
      let (rv, p3, c2) ← genCF r p2 (c1 + 1)
      let p4 := p3.addInst (.add res rv "x0")
      let jIdx := p4.insts.length
      let p5 := p4.addInst (.jal "x0" none)
      let p6 := { p5 with insts := setTargetAt p5.insts bIdx p5.insts.length }
      let p7 := p6.addInst (.addi res "x0" 0)
      let p8 := { p7 with insts := setTargetAt p7.insts jIdx p7.insts.length }
      some (res, p8, c2)
  | .orE l r, p, c => do
      let (lv, p1, c1) ← genCF l p c
      let res := newVar c1
      let bIdx := p1.insts.length
      let p2 := p1.addInst (.beq lv "x0" none)
      let p3 := p2.addInst (.addi res "x0" 1)
      let jIdx := p3.insts.length
      let p4 := p3.addInst (.jal "x0" none)
      let p5 := { p4 with insts := setTargetAt p4.insts bIdx p4.insts.length }
      let (rv, p6, c2) ← genCF r p5 (c1 + 1)
      let p7 := p6.addInst (.add res rv "x0")
      let p8 := { p7 with insts := setTargetAt p7.insts jIdx p7.insts.length }
      some (res, p8, c2)
  | .add l r, p, c => do
      let (lv, p1, c1) ← genCF l p c
      let (rv, p2, c2) ← genCF r p1 c1
      some (newVar c2, p2.addInst (.add (newVar c2) lv rv), c2 + 1)
  | .sub l r, p, c => do
      let (lv, p1, c1) ← genCF l p c
      let (rv, p2, c2) ← genCF r p1 c1
      some (newVar c2, p2.addInst (.sub (newVar c2) lv rv), c2 + 1)
  | .mul l r, p, c => do
      let (lv, p1, c1) ← genCF l p c
      let (rv, p2, c2) ← genCF r p1 c1
      some (newVar c2, p2.addInst (.mul (newVar c2) lv rv), c2 + 1)
  | .div l r, p, c => do
      let (lv, p1, c1) ← genCF l p c
      let (rv, p2, c2) ← genCF r p1 c1
      some (newVar c2, p2.addInst (.div (newVar c2) lv rv), c2 + 1)
  | .leq l r, p, c => do
      let (lv, p1, c1) ← genCF l p c
      let (rv, p2, c2) ← genCF r p1 c1
      let p3 := (p2.addInst (.slt (newVar c2) rv lv)).addInst
        (.xori (newVar (c2 + 1)) (newVar c2) 1)
      some (newVar (c2 + 1), p3, c2 + 2)
  | .lth l r, p, c => do
      let (lv, p1, c1) ← genCF l p c
      let (rv, p2, c2) ← genCF r p1 c1
      some (newVar c2, p2.addInst (.slt (newVar c2) lv rv), c2 + 1)
  | .neg e, p, c => do
      let (ev, p1, c1) ← genCF e p c
      some (newVar c1, p1.addInst (.sub (newVar c1) "x0" ev), c1 + 1)
  | .notE e, p, c => do
      let (ev, p1, c1) ← genCF e p c
      let p2 := (((p1.addInst (.slt (newVar c1) "x0" ev)).addInst
        (.slt (newVar (c1 + 1)) ev "x0")).addInst
        (.add (newVar (c1 + 2)) (newVar c1) (newVar (c1 + 1)))).addInst
        (.xori (newVar (c1 + 3)) (newVar (c1 + 2)) 1)
      some (newVar (c1 + 3), p2, c1 + 4)
  | .letE x d b, p, c => do
      let (dv, p1, c1) ← genCF d p c
      let p2 ← p1.eval
      let v ← getVal p2.env dv
      let p3 := { p2 with env := p2.env.set x v }
      genCF b p3 c1
  | .ifThenElse cond e0 e1, p, c => do
      let (cv, p1, c1) ← genCF cond p c
      let res := newVar c1
      let bIdx := p1.insts.length
      let p2 := p1.addInst (.beq cv "x0" none)
      let (tv, p3, c2) ← genCF e0 p2 (c1 + 1)
      let p4 := p3.addInst (.add res tv "x0")
      let jIdx := p4.insts.length
      let p5 := p4.addInst (.jal "x0" none)
      let p6 := { p5 with insts := setTargetAt p5.insts bIdx p5.insts.length }
      let (ev, p7, c3) ← genCF e1 p6 c2
      let p8 := p7.addInst (.add res ev "x0")
      let p9 := { p8 with insts := setTargetAt p8.insts jIdx p8.insts.length }
      some (res, p9, c3)
  | _, _, _ => none

/-- Function entry labels from `GenVisitor.next_fn_value` of the functions
variant: the counter is incremented first, so labels are `fun_<formal>_1`,
`fun_<formal>_2`, ... -/
def fnLabel (formal : String) (f : Nat) : String :=
  "fun_" ++ formal ++ "_" ++ Nat.repr (f + 1)

/-- The code generator of the functions variant
(`CodeGenFunctions/Visitor.py`, class `GenVisitor`): like the control-flow
generator but with a purely appending `visit_let`, plus `visit_fn`
(guarded function body, `ra` saved on the `sp` stack, formal bound from
`a0`, result in `a0`, return through `Jalr` on `ra`) and `visit_app`
(argument moved into `a0`, call through `Jalr` on `ra`, result copied from
`a0` into a fresh variable).  The state is the pair of the variable counter
and the function counter. -/
def genFn : Expr → Program → Nat × Nat → Option (String × Program × (Nat × Nat))
  | .var x, p, st => some (x, p, st)
  | .bln b, p, (c, f) =>
      some (newVar c, p.addInst (.addi (newVar c) "x0" (if b then 1 else 0)), (c + 1, f))
  | .num n, p, (c, f) => some (newVar c, p.addInst (.addi (newVar c) "x0" n), (c + 1, f))
  | .eql l r, p, st => do
      let (lv, p1, st1) ← genFn l p st
      let (rv, p2, (c2, f2)) ← genFn r p1 st1
      let p3 := (((p2.addInst (.sub (newVar c2) lv rv)).addInst
        (.slti (newVar (c2 + 1)) (newVar c2) 1)).addInst
        (.slti (newVar (c2 + 2)) (newVar c2) 0)).addInst
        (.sub (newVar (c2 + 3)) (newVar (c2 + 1)) (newVar (c2 + 2)))
      some (newVar (c2 + 3), p3, (c2 + 4, f2))
  | .andE l r, p, st => do
      let (lv, p1, (c1, f1)) ← genFn l p st
      let res := newVar c1
      let bIdx := p1.insts.length
      let p2 := p1.addInst (.beq lv "x0" none)
      let (rv, p3, st2) ← genFn r p2 (c1 + 1, f1)
      let p4 := p3.addInst (.add res rv "x0")
      let jIdx := p4.insts.length
      let p5 := p4.addInst (.jal "x0" none)
      let p6 := { p5 with insts := setTargetAt p5.insts bIdx p5.insts.length }
      let p7 := p6.addInst (.addi res "x0" 0)
      let p8 := { p7 with insts := setTargetAt p7.insts jIdx p7.insts.length }
      some (res, p8, st2)
  | .orE l r, p, st => do
      let (lv, p1, (c1, f1)) ← genFn l p st
      let res := newVar c1
      let bIdx := p1.insts.length
      let p2 := p1.addInst (.beq lv "x0" none)
      let p3 := p2.addInst (.addi res "x0" 1)
      let jIdx := p3.insts.length
      let p4 := p3.addInst (.jal "x0" none)
      let p5 := { p4 with insts := setTargetAt p4.insts bIdx p4.insts.length }
      let (rv, p6, st2) ← genFn r p5 (c1 + 1, f1)
      let p7 := p6.addInst (.add res rv "x0")
      let p8 := { p7 with insts := setTargetAt p7.insts jIdx p7.insts.length }
      some (res, p8, st2)
  | .add l r, p, st => do
      let (lv, p1, st1) ← genFn l p st
      let (rv, p2, (c2, f2)) ← genFn r p1 st1
      some (newVar c2, p2.addInst (.add (newVar c2) lv rv), (c2 + 1, f2))
  | .sub l r, p, st => do
      let (lv, p1, st1) ← genFn l p st
      let (rv, p2, (c2, f2)) ← genFn r p1 st1
      some (newVar c2, p2.addInst (.sub (newVar c2) lv rv), (c2 + 1, f2))
  | .mul l r, p, st => do
      let (lv, p1, st1) ← genFn l p st
      let (rv, p2, (c2, f2)) ← genFn r p1 st1
      some (newVar c2, p2.addInst (.mul (newVar c2) lv rv), (c2 + 1, f2))
  | .div l r, p, st => do
      let (lv, p1, st1) ← genFn l p st
      let (rv, p2, (c2, f2)) ← genFn r p1 st1
      some (newVar c2, p2.addInst (.div (newVar c2) lv rv), (c2 + 1, f2))
  | .leq l r, p, st => do
      let (lv, p1, st1) ← genFn l p st
      let (rv, p2, (c2, f2)) ← genFn r p1 st1
      let p3 := (p2.addInst (.slt (newVar c2) rv lv)).addInst
        (.xori (newVar (c2 + 1)) (newVar c2) 1)
      some (newVar (c2 + 1), p3, (c2 + 2, f2))
  | .lth l r, p, st => do
      let (lv, p1, st1) ← genFn l p st
      let (rv, p2, (c2, f2)) ← genFn r p1 st1
      some (newVar c2, p2.addInst (.slt (newVar c2) lv rv), (c2 + 1, f2))
  | .neg e, p, st => do
      let (ev, p1, (c1, f1)) ← genFn e p st
      some (newVar c1, p1.addInst (.sub (newVar c1) "x0" ev), (c1 + 1, f1))
  | .notE e, p, st => do
      let (ev, p1, (c1, f1)) ← genFn e p st
      let p2 := (((p1.addInst (.slt (newVar c1) "x0" ev)).addInst
        (.slt (newVar (c1 + 1)) ev "x0")).addInst
        (.add (newVar (c1 + 2)) (newVar c1) (newVar (c1 + 1)))).addInst
        (.xori (newVar (c1 + 3)) (newVar (c1 + 2)) 1)
      some (newVar (c1 + 3), p2, (c1 + 4, f1))
  | .letE x d b, p, st => do
      let (dv, p1, (c1, f1)) ← genFn d p st
      let p2 := p1.addInst (.add x "x0" dv)
      let res := newVar c1
      let (bv, p3, st2) ← genFn b p2 (c1 + 1, f1)
      some (res, p3.addInst (.add res "x0" bv), st2)
  | .ifThenElse cond e0 e1, p, st => do
      let (cv, p1, (c1, f1)) ← genFn cond p st
      let res := newVar c1
      let bIdx := p1.insts.length
      let p2 := p1.addInst (.beq cv "x0" none)
      let (tv, p3, st2) ← genFn e0 p2 (c1 + 1, f1)
      let p4 := p3.addInst (.add res tv "x0")
      let jIdx := p4.insts.length
      let p5 := p4.addInst (.jal "x0" none)
      let p6 := { p5 with insts := setTargetAt p5.insts bIdx p5.insts.length }
      let (ev, p7, st3) ← genFn e1 p6 st2
      let p8 := p7.addInst (.add res ev "x0")
      let p9 := { p8 with insts := setTargetAt p8.insts jIdx p8.insts.length }
      some (res, p9, st3)
  | .fn formal body, p, (c, f) => do
      let lab := fnLabel formal f
      let jIdx := p.insts.length
      let p1 := p.addInst (.jal lab none)
      let p2 := ((p1.addInst (.addi "sp" "sp" (-1))).addInst
        (.sw "sp" 0 "ra")).addInst (.add formal "a0" "x0")
      let (bv, p3, st1) ← genFn body p2 (c, f + 1)
      let p4 := (((p3.addInst (.add "a0" bv "x0")).addInst
        (.lw "sp" 0 "ra")).addInst (.addi "sp" "sp" 1)).addInst
        (.jalr "x0" "ra" 0)
      let p5 := { p4 with insts := setTargetAt p4.insts jIdx p4.insts.length }
      some (lab, p5, st1)
  | .app g actual, p, st => do
      let (fv, p1, st1) ← genFn g p st
      let (av, p2, (c2, f2)) ← genFn actual p1 st1
      let p3 := (p2.addInst (.add "a0" av "x0")).addInst (.jalr "ra" fv 0)
      let res := newVar c2
      some (res, p3.addInst (.add res "a0" "x0"), (c2 + 1, f2))
  | .mod _ _, _, _ => none

/-- The variable renamer of the control-flow variant
(`ControlFlow/Visitor.py`, class `RenameVisitor`): fresh names are the
original identifier, an underscore and the current value of a
strictly-increasing counter (the counter is read first, then incremented).
A `Var` whose identifier has no mapping keeps its identifier (permissive).
`visit_let` renames the definition under the enclosing map, then generates
the fresh name, then renames the body under the extended map.  Node
variants without a visiting method (`mod`, `fn`, `app`) give `none`. -/
def renameCF : Expr → (String → Option String) → Nat → Option (Expr × Nat)
  | .var x, m, c =>
      some (.var (match m x with | some y => y | none => x), c)
  | .bln b, _, c => some (.bln b, c)
  | .num n, _, c => some (.num n, c)
  | .eql l r, m, c => do
      let (l1, c1) ← renameCF l m c
      let (r1, c2) ← renameCF r m c1
      some (.eql l1 r1, c2)
  | .andE l r, m, c => do
      let (l1, c1) ← renameCF l m c
      let (r1, c2) ← renameCF r m c1
      some (.andE l1 r1, c2)
  | .orE l r, m, c => do
      let (l1, c1) ← renameCF l m c
      let (r1, c2) ← renameCF r m c1
      some (.orE l1 r1, c2)
  | .add l r, m, c => do
      let (l1, c1) ← renameCF l m c
      let (r1, c2) ← renameCF r m c1
      some (.add l1 r1, c2)
  | .sub l r, m, c => do
      let (l1, c1) ← renameCF l m c
      let (r1, c2) ← renameCF r m c1
      some (.sub l1 r1, c2)
  | .mul l r, m, c => do
      let (l1, c1) ← renameCF l m c
      let (r1, c2) ← renameCF r m c1
      some (.mul l1 r1, c2)
  | .div l r, m, c => do
      let (l1, c1) ← renameCF l m c
      let (r1, c2) ← renameCF r m c1
      some (.div l1 r1, c2)
  | .leq l r, m, c => do
      let (l1, c1) ← renameCF l m c
      let (r1, c2) ← renameCF r m c1
      some (.leq l1 r1, c2)
  | .lth l r, m, c => do
      let (l1, c1) ← renameCF l m c
      let (r1, c2) ← renameCF r m c1
      some (.lth l1 r1, c2)
  | .neg e, m, c => do
      let (e1, c1) ← renameCF e m c
      some (.neg e1, c1)
  | .notE e, m, c => do
      let (e1, c1) ← renameCF e m c
      some (.notE e1, c1)
  | .letE x d b, m, c => do
      let (d1, c1) ← renameCF d m c
      let fresh := x ++ "_" ++ Nat.repr c1
      let (b1, c2) ← renameCF b (fun n => if n = x then some fresh else m n) (c1 + 1)
      some (.letE fresh d1 b1, c2)
  | .ifThenElse cond e0 e1, m, c => do
      let (cd, c1) ← renameCF cond m c
      let (t1, c2) ← renameCF e0 m c1
      let (t2, c3) ← renameCF e1 m c2
      some (.ifThenElse cd t1 t2, c3)
  | _, _, _ => none

/-- The variable renamer of the register-allocation variant
(`CodeGenForRegisterAllocation/Visitor.py`, class `RenameVisitor`): a `Var`
whose identifier has no mapping raises `ValueError` (modelled as `none`).
`visit_let` renames the binder with a name derived from the node's Python
object identity `id(exp)` — modelled here as a monotone supply of distinct
tokens — then renames the definition under the enclosing map and the body
under the extended map.  Node variants without a visiting method give
`none`. -/
def renameRA : Expr → (String → Option String) → Nat → Option (Expr × Nat)
  | .var x, m, s =>
      match m x with
      | some y => some (.var y, s)
      | none => none
  | .bln b, _, s => some (.bln b, s)
  | .num n, _, s => some (.num n, s)
  | .eql l r, m, s => do
      let (l1, s1) ← renameRA l m s
      let (r1, s2) ← renameRA r m s1
      some (.eql l1 r1, s2)
  | .add l r, m, s => do
      let (l1, s1) ← renameRA l m s
      let (r1, s2) ← renameRA r m s1
      some (.add l1 r1, s2)
  | .sub l r, m, s => do
      let (l1, s1) ← renameRA l m s
      let (r1, s2) ← renameRA r m s1
      some (.sub l1 r1, s2)
  | .mul l r, m, s => do
      let (l1, s1) ← renameRA l m s
      let (r1, s2) ← renameRA r m s1
      some (.mul l1 r1, s2)
  | .div l r, m, s => do
      let (l1, s1) ← renameRA l m s
      let (r1, s2) ← renameRA r m s1
      some (.div l1 r1, s2)
  | .leq l r, m, s => do
      let (l1, s1) ← renameRA l m s
      let (r1, s2) ← renameRA r m s1
      some (.leq l1 r1, s2)
  | .lth l r, m, s => do
      let (l1, s1) ← renameRA l m s
      let (r1, s2) ← renameRA r m s1
      some (.lth l1 r1, s2)
  | .neg e, m, s => do
      let (e1, s1) ← renameRA e m s
      some (.neg e1, s1)
  | .notE e, m, s => do
      let (e1, s1) ← renameRA e m s
      some (.notE e1, s1)
  | .letE x d b, m, s => do
      let fresh := x ++ "_" ++ Nat.repr s
      let (d1, s1) ← renameRA d m (s + 1)
      let (b1, s2) ← renameRA b (fun n => if n = x then some fresh else m n) s1
      some (.letE fresh d1 b1, s2)
  | _, _, _ => none

/-- The fixed register names the allocator never spills
(`RegAllocator.DEFAULT_REGS`). -/
def defaultRegs : List String := ["x0", "sp", "ra"]

/-- The mutable state of `RegAllocator`: the monotone spill-slot counter and
the variable-to-memory-slot map. -/
structure RAState where
  counter : Nat
  varToMem : String → Option Nat

/-- The initial allocator state (`RegAllocator.__init__`). -/
def RAState.init : RAState := ⟨0, fun _ => none⟩

/-- `RegAllocator._ensure_memory`: assign the next memory slot to a
non-default variable on first sight. -/
def ensureMemory (st : RAState) (v : String) : RAState :=
  if v ∈ defaultRegs ∨ (st.varToMem v).isSome then st
  else ⟨st.counter + 1, fun n => if n = v then some (st.counter + 1) else st.varToMem n⟩

/-- `RegAllocator._load`: default registers pass through with no code; any
other variable is loaded from its memory slot into the given scratch
register, failing (`KeyError`) when it has no slot. -/
def raLoad (st : RAState) (v : String) (reg : String) : Option (String × List Instr) :=
  if v ∈ defaultRegs then some (v, [])
  else (st.varToMem v).map fun s => (reg, [.lw "x0" (s : Int) reg])

/-- `RegAllocator._store`: default registers store nothing; any other
variable is stored from the given register back to its memory slot. -/
def raStore (st : RAState) (v : String) (reg : String) : Option (List Instr) :=
  if v ∈ defaultRegs then some []
  else (st.varToMem v).map fun s => [.sw "x0" (s : Int) reg]

/-- `RegAllocator.get_val`: read a variable's final value through its memory
slot; a variable with no slot raises `ValueError` (modelled as `none`). -/
def raGetVal (st : RAState) (mem : Int → Int) (v : String) : Option Int :=
  (st.varToMem v).map fun s => mem (s : Int)

/-- `RegAllocator.handle_bin_immediate`. -/
def handleBinImmediate (st : RAState) (mk : String → String → Int → Instr)
    (rd rs1 : String) (imm : Int) : Option (List Instr × RAState) := do
  let st1 := ensureMemory st rd
  let dest := if rd ∈ defaultRegs then rd else "a0"
  let (r1, l1) ← raLoad st1 rs1 "a0"
  let sc ← raStore st1 rd dest
  some (l1 ++ [mk dest r1 imm] ++ sc, st1)

/-- `RegAllocator.handle_bin_standard`. -/
def handleBinStandard (st : RAState) (mk : String → String → String → Instr)
    (rd rs1 rs2 : String) : Option (List Instr × RAState) := do
  let st1 := ensureMemory st rd
  let dest := if rd ∈ defaultRegs then rd else "a0"
  let (r1, l1) ← raLoad st1 rs1 "a0"
  let (r2, l2) ← raLoad st1 rs2 "a1"
  let sc ← raStore st1 rd dest
  some (l1 ++ l2 ++ [mk dest r1 r2] ++ sc, st1)

/-- `RegAllocator.handle_jump` for `Jal`: a non-default destination variable
gets the allocation-time program counter stored into its slot and the jump
writes to `x0` instead. -/
def handleJal (pcSnap : Nat) (st : RAState) (rd : String) (lab : Option Nat) :
    Option (List Instr × RAState) := do
  let st1 := ensureMemory st rd
  if rd ∈ defaultRegs then some ([.jal rd lab], st1)
  else do
    let s ← st1.varToMem rd
    some ([.addi "a0" "x0" (pcSnap : Int), .sw "x0" (s : Int) "a0", .jal "x0" lab], st1)

/-- `RegAllocator.handle_jump` for `Jalr`. -/
def handleJalr (pcSnap : Nat) (st : RAState) (rd rs : String) (offset : Int) :
    Option (List Instr × RAState) := do
  let st1 := ensureMemory st rd
  if rd ∈ defaultRegs then do
    let (src, ls) ← raLoad st1 rs "a1"
    some (ls ++ [.jalr rd src offset], st1)
  else do
    let s ← st1.varToMem rd
    let (src, ls) ← raLoad st1 rs "a1"
    some ([.addi "a0" "x0" (pcSnap : Int), .sw "x0" (s : Int) "a0"] ++ ls ++
      [.jalr "x0" src offset], st1)

/-- `RegAllocator.handle_branch`. -/
def handleBranch (st : RAState) (rs1 rs2 : String) (lab : Option Nat) :
    Option (List Instr × RAState) := do
  let (r1, l1) ← raLoad st rs1 "a0"
  let (r2, l2) ← raLoad st rs2 "a1"
  some (l1 ++ l2 ++ [.beq r1 r2 lab], st)

/-- `RegAllocator.handle_memory_op`. -/
def handleMemoryOp (st : RAState) (i : Instr) : Option (List Instr × RAState) :=
  match i with
  | .lw rs1 offset reg => do
      let st1 := ensureMemory st reg
      let dest := if reg ∈ defaultRegs then reg else "a0"
      let (base, lb) ← raLoad st1 rs1 "a1"
      let sc ← raStore st1 reg dest
      some (lb ++ [.lw base offset dest] ++ sc, st1)
  | .sw rs1 offset reg => do
      let (val, lv) ← raLoad st reg "a0"
      let (base, lb) ← raLoad st rs1 "a1"
      some (lv ++ lb ++ [.sw base offset val], st)
  | _ => none

/-- Dispatch of `RegAllocator.op_handlers` for one instruction. -/
def allocOne (pcSnap : Nat) (st : RAState) (i : Instr) : Option (List Instr × RAState) :=
  match i with
  | .addi rd rs1 imm => handleBinImmediate st .addi rd rs1 imm
  | .xori rd rs1 imm => handleBinImmediate st .xori rd rs1 imm
  | .slti rd rs1 imm => handleBinImmediate st .slti rd rs1 imm
  | .add rd rs1 rs2 => handleBinStandard st .add rd rs1 rs2
  | .sub rd rs1 rs2 => handleBinStandard st .sub rd rs1 rs2
  | .mul rd rs1 rs2 => handleBinStandard st .mul rd rs1 rs2
  | .div rd rs1 rs2 => handleBinStandard st .div rd rs1 rs2
  | .xor rd rs1 rs2 => handleBinStandard st .xor rd rs1 rs2
  | .slt rd rs1 rs2 => handleBinStandard st .slt rd rs1 rs2
  | .jal rd lab => handleJal pcSnap st rd lab
  | .jalr rd rs offset => handleJalr pcSnap st rd rs offset
  | .beq rs1 rs2 lab => handleBranch st rs1 rs2 lab
  | .lw _ _ _ => handleMemoryOp st i
  | .sw _ _ _ => handleMemoryOp st i

/-- The loop of `RegAllocator.optimize`: rewrite every instruction in order,
threading the allocator state, and concatenate the handler outputs. -/
def allocList (pcSnap : Nat) (st : RAState) : List Instr → Option (List Instr × RAState)
  | [] => some ([], st)
  | i :: l => do
      let (code, st1) ← allocOne pcSnap st i
      let (rest, st2) ← allocList pcSnap st1 l
      some (code ++ rest, st2)

/-- `RegAllocator.optimize` applied to a whole program: the old instruction
list is replaced wholesale by the rewritten one. -/
def optimize (p : Program) : Option (Program × RAState) :=
  (allocList p.pc RAState.init p.insts).map fun (l, st) => ({ p with insts := l }, st)

/-- Generate code for an expression with the register-allocation variant,
execute it on the symbolic (unallocated) machine of a fresh 1000-word
program, and read the result variable, as the driver does before
allocation. -/
def compileRunRA (e : Expr) : Option Int :=
  (genRA e 0).bind fun (l, v, _) =>
    (run l l.length ⟨initEnv 1000, fun _ => 0, 0⟩).bind fun s => getVal s.env v

/-- Register names that appear as operands of an instruction. -/
def Instr.regOperands : Instr → List String
  | .addi rd rs1 _ => [rd, rs1]
  | .xori rd rs1 _ => [rd, rs1]
  | .slti rd rs1 _ => [rd, rs1]
  | .add rd rs1 rs2 => [rd, rs1, rs2]
  | .sub rd rs1 rs2 => [rd, rs1, rs2]
  | .mul rd rs1 rs2 => [rd, rs1, rs2]
  | .div rd rs1 rs2 => [rd, rs1, rs2]
  | .xor rd rs1 rs2 => [rd, rs1, rs2]
  | .slt rd rs1 rs2 => [rd, rs1, rs2]
  | .lw rs1 _ reg => [rs1, reg]
  | .sw rs1 _ reg => [rs1, reg]
  | .beq rs1 rs2 _ => [rs1, rs2]
  | .jal rd _ => [rd]
  | .jalr rd rs _ => [rd, rs]

/-- The physical register file of the allocator's target. -/
def physRegs : List String := ["x0", "sp", "ra", "a0", "a1", "a2", "a3"]

/-- Every register operand of `i` is a physical register. -/
def Instr.physOperands (i : Instr) : Prop :=
  ∀ x ∈ i.regOperands, x ∈ physRegs

/-- One instruction list extends another by appended code. -/
def InstExt (l l' : List Instr) : Prop := ∃ code, l' = l ++ code

def letBinders : Expr → List String
  | .var _ => []
  | .bln _ => []
  | .num _ => []
  | .eql l r => letBinders l ++ letBinders r
  | .andE l r => letBinders l ++ letBinders r
  | .orE l r => letBinders l ++ letBinders r
  | .add l r => letBinders l ++ letBinders r
  | .sub l r => letBinders l ++ letBinders r
  | .mul l r => letBinders l ++ letBinders r
  | .div l r => letBinders l ++ letBinders r
  | .mod l r => letBinders l ++ letBinders r
  | .leq l r => letBinders l ++ letBinders r
  | .lth l r => letBinders l ++ letBinders r
  | .neg e => letBinders e
  | .notE e => letBinders e
  | .letE x d b => x :: (letBinders d ++ letBinders b)
  | .ifThenElse cond e0 e1 => letBinders cond ++ letBinders e0 ++ letBinders e1
  | .fn _ b => letBinders b
  | .app f a => letBinders f ++ letBinders a

def BinderSpec (c c' : Nat) (bs : List String) : Prop :=
  (∀ b ∈ bs, ∃ x k, b = x ++ "_" ++ Nat.repr k ∧ c ≤ k ∧ k < c') ∧ bs.Nodup

inductive RenamedWith : (String → Option String) → Expr → Expr → Prop
  | var (m : String → Option String) (x : String) :
      RenamedWith m (.var x) (.var (match m x with | some y => y | none => x))
  | bln (m : String → Option String) (b : Bool) : RenamedWith m (.bln b) (.bln b)
  | num (m : String → Option String) (n : Int) : RenamedWith m (.num n) (.num n)
  | eql {m l r l' r'} : RenamedWith m l l' → RenamedWith m r r' →
      RenamedWith m (.eql l r) (.eql l' r')
  | andE {m l r l' r'} : RenamedWith m l l' → RenamedWith m r r' →
      RenamedWith m (.andE l r) (.andE l' r')
  | orE {m l r l' r'} : RenamedWith m l l' → RenamedWith m r r' →
      RenamedWith m (.orE l r) (.orE l' r')
  | add {m l r l' r'} : RenamedWith m l l' → RenamedWith m r r' →
      RenamedWith m (.add l r) (.add l' r')
  | sub {m l r l' r'} : RenamedWith m l l' → RenamedWith m r r' →
      RenamedWith m (.sub l r) (.sub l' r')
  | mul {m l r l' r'} : RenamedWith m l l' → RenamedWith m r r' →
      RenamedWith m (.mul l r) (.mul l' r')
  | div {m l r l' r'} : RenamedWith m l l' → RenamedWith m r r' →
      RenamedWith m (.div l r) (.div l' r')
  | leq {m l r l' r'} : RenamedWith m l l' → RenamedWith m r r' →
      RenamedWith m (.leq l r) (.leq l' r')
  | lth {m l r l' r'} : RenamedWith m l l' → RenamedWith m r r' →
      RenamedWith m (.lth l r) (.lth l' r')
  | neg {m e e'} : RenamedWith m e e' → RenamedWith m (.neg e) (.neg e')
  | notE {m e e'} : RenamedWith m e e' → RenamedWith m (.notE e) (.notE e')
  | letE {m x d b d' b'} (n : String) : RenamedWith m d d' →
      RenamedWith (fun z => if z = x then some n else m z) b b' →
      RenamedWith m (.letE x d b) (.letE n d' b')
  | ifThenElse {m c0 e0 e1 c0' e0' e1'} : RenamedWith m c0 c0' →
      RenamedWith m e0 e0' → RenamedWith m e1 e1' →
      RenamedWith m (.ifThenElse c0 e0 e1) (.ifThenElse c0' e0' e1')

/-- The eight straight-line opcodes the register-allocation code generator
emits (every `genRA` output instruction is one of these). -/
def SOp : Instr → Prop
  | .addi _ _ _ => True
  | .xori _ _ _ => True
  | .slti _ _ _ => True
  | .add _ _ _ => True
  | .sub _ _ _ => True
  | .mul _ _ _ => True
  | .div _ _ _ => True
  | .slt _ _ _ => True
  | _ => False

/-- Simulation invariant between the symbolic machine (variable table
`envS`) and the allocated machine (variable table `envA`, memory `memA`)
under allocator state `st`: the two agree on the default registers, default
registers are never spilled, every spilled variable's slot holds its
symbolic value, slots never exceed the counter and are assigned
injectively, and every bound non-default variable has a slot. -/
def Inv (st : RAState) (envS envA : Env) (memA : Int → Int) : Prop :=
  (∀ v ∈ defaultRegs, getVal envS v = getVal envA v) ∧
  (∀ v ∈ defaultRegs, st.varToMem v = none) ∧
  (∀ v s, st.varToMem v = some s → ∃ x, envS v = some x ∧ memA (s : Int) = x) ∧
  (∀ v s, st.varToMem v = some s → s ≤ st.counter) ∧
  (∀ v w s, st.varToMem v = some s → st.varToMem w = some s → v = w) ∧
  (∀ v, v ∉ defaultRegs → (envS v).isSome → (st.varToMem v).isSome)

theorem getVal_x0 (e : Env) : getVal e "x0" = some 0 := rfl

theorem getVal_setVal_same (e : Env) (x : String) (v : Int) (hx : x ≠ "x0") :
    getVal (setVal e x v) x = some v := by
  simp [getVal, setVal, Env.set, hx]

theorem getVal_setVal_other (e : Env) (x y : String) (v : Int) (hy : y ≠ x) :
    getVal (setVal e x v) y = getVal e y := by
  by_cases h0 : y = "x0"
  · subst h0; simp [getVal]
  · by_cases hx : x = "x0"
    · simp [setVal, hx]
    · simp [getVal, setVal, Env.set, h0, hx, hy]

theorem memSet_same (m : Int → Int) (a v : Int) : memSet m a v a = v := by
  simp [memSet]

theorem memSet_other (m : Int → Int) (a b v : Int) (h : b ≠ a) :
    memSet m a v b = m b := by
  simp [memSet, h]

/-- C3: compiling `(fn v => v * v) (3 + 4)` with the functions-variant code
generator and executing the program yields 49; moreover the instructions
emitted by the application are: move the argument into the
argument-convention register `a0`, call through `Jalr` with the return
address in `ra` and the function's entry-address variable as the target,
and copy the return-value register `a0` into the fresh result variable
`v5`. -/
theorem fn_application_squares_sum :
    ((genFn (.app (.fn "v" (.mul (.var "v") (.var "v"))) (.add (.num 3) (.num 4)))
        ⟨[], initEnv 1000, fun _ => 0, 0⟩ (0, 0)).bind fun (v, p, _) =>
      (run p.insts p.insts.length ⟨p.env, p.mem, p.pc⟩).bind fun s => getVal s.env v)
      = some 49
    ∧ ((genFn (.app (.fn "v" (.mul (.var "v") (.var "v"))) (.add (.num 3) (.num 4)))
        ⟨[], initEnv 1000, fun _ => 0, 0⟩ (0, 0)).map fun (v, p, _) =>
          (v, p.insts.drop 12))
      = some ("v5", [.add "a0" "v4" "x0", .jalr "ra" "fun_v_1" 0, .add "v5" "a0" "x0"]) := by
  constructor
  · decide
  · decide

set_option maxHeartbeats 1000000 in
/-- C4: for all integers `a` and `b`, including negative values, the code the
register-allocation variant generates for the comparisons, executed on the
machine, yields: `Eql(a,b)` is 1 exactly when `a = b` (computed as
`(a-b < 1) - (a-b < 0)`), `Lth(a,b)` is 1 exactly when `a < b`, and
`Leq(a,b)` is 1 exactly when `a ≤ b`. -/
theorem comparisons_correct_all_integers (a b : Int) :
    compileRunRA (.eql (.num a) (.num b)) = some (if a = b then 1 else 0)
    ∧ compileRunRA (.lth (.num a) (.num b)) = some (if a < b then 1 else 0)
    ∧ compileRunRA (.leq (.num a) (.num b)) = some (if a ≤ b then 1 else 0) := by
  refine ⟨?_, ?_, ?_⟩
  · have hgen : genRA (.eql (.num a) (.num b)) 0 =
        some ([.addi "v1" "x0" a, .addi "v2" "x0" b, .sub "v3" "v1" "v2",
               .slti "v4" "v3" 1, .slti "v5" "v3" 0, .sub "v6" "v4" "v5"], "v6", 6) := rfl
    unfold compileRunRA
    rw [hgen]
    simp only [Option.some_bind]
    simp [run, instStep, getVal, setVal, initEnv, Env.set]
    split_ifs <;> omega
  · have hgen : genRA (.lth (.num a) (.num b)) 0 =
        some ([.addi "v1" "x0" a, .addi "v2" "x0" b, .slt "v3" "v1" "v2"], "v3", 3) := rfl
    unfold compileRunRA
    rw [hgen]
    simp only [Option.some_bind]
    simp [run, instStep, getVal, setVal, initEnv, Env.set]
  · have hgen : genRA (.leq (.num a) (.num b)) 0 =
        some ([.addi "v1" "x0" a, .addi "v2" "x0" b, .slt "v3" "v2" "v1",
               .xori "v4" "v3" 1], "v4", 4) := rfl
    unfold compileRunRA
    rw [hgen]
    simp only [Option.some_bind]
    simp [run, instStep, getVal, setVal, initEnv, Env.set]
    split_ifs <;> simp [pyXor] <;> first | rfl | omega | decide

/-- C9: during register allocation, loading a symbolic (non-default)
variable that has no assigned spill slot fails, and `get_val` for a
variable with no slot fails — neither silently defaults to zero. -/
theorem unallocated_variable_use_fails (st : RAState) (v reg : String)
    (mem : Int → Int) (hv : st.varToMem v = none) :
    (v ∉ defaultRegs → raLoad st v reg = none) ∧ raGetVal st mem v = none := by
  refine ⟨fun hd => ?_, ?_⟩
  · simp [raLoad, hd, hv]
  · simp [raGetVal, hv]

/-- Witness for C9 at the fresh allocator state and the variable `a`. -/
theorem unallocated_variable_use_fails_witness :
    ("a" ∉ defaultRegs → raLoad RAState.init "a" "a0" = none)
    ∧ raGetVal RAState.init (fun _ => 0) "a" = none :=
  unallocated_variable_use_fails RAState.init "a" "a0" (fun _ => 0) rfl

/-- C7 fails as stated: allocating the one-instruction program
`[Addi sp sp -1]` (all operands are default registers) returns a program of
the same length, not a strictly longer one. -/
theorem alloc_not_strictly_longer :
    (allocList 0 RAState.init [.addi "sp" "sp" (-1)]).map (fun r => r.1.length)
      = some [Instr.addi "sp" "sp" (-1)].length := by
  decide

theorem raLoad_phys (st : RAState) (v reg : String) (r : String)
    (code : List Instr) (hreg : reg ∈ physRegs)
    (h : raLoad st v reg = some (r, code)) :
    r ∈ physRegs ∧ ∀ i ∈ code, i.physOperands := by
  by_cases hd : v ∈ defaultRegs
  · simp [raLoad, hd] at h
    obtain ⟨rfl, rfl⟩ := h
    constructor
    · fin_cases hd <;> simp [physRegs]
    · simp
  · cases hm : st.varToMem v with
    | none => simp [raLoad, hd, hm] at h
    | some s =>
      simp [raLoad, hd, hm] at h
      obtain ⟨rfl, rfl⟩ := h
      refine ⟨hreg, ?_⟩
      intro i hi
      simp at hi
      subst hi
      intro x hx
      simp [Instr.regOperands] at hx
      rcases hx with rfl | rfl
      · simp [physRegs]
      · exact hreg

theorem raStore_phys (st : RAState) (v reg : String)
    (code : List Instr) (hreg : reg ∈ physRegs)
    (h : raStore st v reg = some code) :
    ∀ i ∈ code, i.physOperands := by
  by_cases hd : v ∈ defaultRegs
  · simp [raStore, hd] at h
    subst h; simp
  · cases hm : st.varToMem v with
    | none => simp [raStore, hd, hm] at h
    | some s =>
      simp [raStore, hd, hm] at h
      subst h
      intro i hi
      simp at hi
      subst hi
      intro x hx
      simp [Instr.regOperands] at hx
      rcases hx with rfl | rfl
      · simp [physRegs]
      · exact hreg

theorem dest_phys (rd : String) :
    (if rd ∈ defaultRegs then rd else "a0") ∈ physRegs := by
  by_cases hd : rd ∈ defaultRegs
  · simp only [hd, if_true]
    fin_cases hd <;> simp [physRegs]
  · simp [hd, physRegs]

theorem handleBinImmediate_phys (st : RAState) (mk : String → String → Int → Instr)
    (rd rs1 : String) (imm : Int) (code : List Instr) (st' : RAState)
    (hmk : ∀ d r i, (mk d r i).regOperands = [d, r])
    (h : handleBinImmediate st mk rd rs1 imm = some (code, st')) :
    1 ≤ code.length ∧ ∀ i ∈ code, i.physOperands := by
  simp only [handleBinImmediate, Option.bind_eq_bind, Option.bind_eq_some, bind] at h
  obtain ⟨⟨r1, l1⟩, hload, h⟩ := h
  obtain ⟨sc, hstore, h⟩ := h
  simp only [Option.some_inj, Prod.mk.injEq] at h
  obtain ⟨rfl, rfl⟩ := h
  obtain ⟨hr1, hl1⟩ := raLoad_phys _ _ _ _ _ (by simp [physRegs]) hload
  have hsc := raStore_phys _ _ _ _ (dest_phys rd) hstore
  constructor
  · simp; omega
  · intro i hi
    simp at hi
    rcases hi with hi | rfl | hi
    · exact hl1 i hi
    · intro x hx
      rw [hmk] at hx
      simp at hx
      rcases hx with rfl | rfl
      · exact dest_phys rd
      · exact hr1
    · exact hsc i hi

theorem handleBinStandard_phys (st : RAState) (mk : String → String → String → Instr)
    (rd rs1 rs2 : String) (code : List Instr) (st' : RAState)
    (hmk : ∀ d r q, (mk d r q).regOperands = [d, r, q])
    (h : handleBinStandard st mk rd rs1 rs2 = some (code, st')) :
    1 ≤ code.length ∧ ∀ i ∈ code, i.physOperands := by
  simp only [handleBinStandard, Option.bind_eq_bind, Option.bind_eq_some, bind] at h
  obtain ⟨⟨r1, l1⟩, hload1, h⟩ := h
  obtain ⟨⟨r2, l2⟩, hload2, h⟩ := h
  obtain ⟨sc, hstore, h⟩ := h
  simp only [Option.some_inj, Prod.mk.injEq] at h
  obtain ⟨rfl, rfl⟩ := h
  obtain ⟨hr1, hl1⟩ := raLoad_phys _ _ _ _ _ (by simp [physRegs]) hload1
  obtain ⟨hr2, hl2⟩ := raLoad_phys _ _ _ _ _ (by simp [physRegs]) hload2
  have hsc := raStore_phys _ _ _ _ (dest_phys rd) hstore
  constructor
  · simp; omega
  · intro i hi
    simp at hi
    rcases hi with hi | hi | rfl | hi
    · exact hl1 i hi
    · exact hl2 i hi
    · intro x hx
      rw [hmk] at hx
      simp at hx
      rcases hx with rfl | rfl | rfl
      · exact dest_phys rd
      · exact hr1
      · exact hr2
    · exact hsc i hi

theorem handleJal_phys (pcSnap : Nat) (st : RAState) (rd : String) (lab : Option Nat)
    (code : List Instr) (st' : RAState)
    (h : handleJal pcSnap st rd lab = some (code, st')) :
    1 ≤ code.length ∧ ∀ i ∈ code, i.physOperands := by
  by_cases hd : rd ∈ defaultRegs
  · simp only [handleJal, hd, if_true, Option.some_inj, Prod.mk.injEq] at h
    obtain ⟨rfl, rfl⟩ := h
    refine ⟨by simp <;> omega, ?_⟩
    intro i hi
    simp at hi
    subst hi
    intro x hx
    simp [Instr.regOperands] at hx
    subst hx
    fin_cases hd <;> simp [physRegs]
  · simp only [handleJal, hd, if_false, Option.bind_eq_bind, Option.bind_eq_some, bind] at h
    obtain ⟨s, hs, h⟩ := h
    simp only [Option.some_inj, Prod.mk.injEq] at h
    obtain ⟨rfl, rfl⟩ := h
    refine ⟨by simp <;> omega, ?_⟩
    intro i hi
    simp at hi
    rcases hi with rfl | rfl | rfl <;>
      · intro x hx
        simp [Instr.regOperands] at hx
        first
        | (rcases hx with rfl | rfl <;> simp [physRegs])
        | (subst hx; simp [physRegs])

theorem handleJalr_phys (pcSnap : Nat) (st : RAState) (rd rs : String) (offset : Int)
    (code : List Instr) (st' : RAState)
    (h : handleJalr pcSnap st rd rs offset = some (code, st')) :
    1 ≤ code.length ∧ ∀ i ∈ code, i.physOperands := by
  by_cases hd : rd ∈ defaultRegs
  · simp only [handleJalr, hd, if_true, Option.bind_eq_bind, Option.bind_eq_some, bind] at h
    obtain ⟨⟨src, ls⟩, hload, h⟩ := h
    simp only [Option.some_inj, Prod.mk.injEq] at h
    obtain ⟨rfl, rfl⟩ := h
    obtain ⟨hsrc, hls⟩ := raLoad_phys _ _ _ _ _ (by simp [physRegs]) hload
    refine ⟨by simp <;> omega, ?_⟩
    intro i hi
    simp at hi
    rcases hi with hi | rfl
    · exact hls i hi
    · intro x hx
      simp [Instr.regOperands] at hx
      rcases hx with rfl | rfl
      · fin_cases hd <;> simp [physRegs]
      · exact hsrc
  · simp only [handleJalr, hd, if_false, Option.bind_eq_bind, Option.bind_eq_some, bind] at h
    obtain ⟨s, hs, h⟩ := h
    obtain ⟨⟨src, ls⟩, hload, h⟩ := h
    simp only [Option.some_inj, Prod.mk.injEq] at h
    obtain ⟨rfl, rfl⟩ := h
    obtain ⟨hsrc, hls⟩ := raLoad_phys _ _ _ _ _ (by simp [physRegs]) hload
    refine ⟨by simp <;> omega, ?_⟩
    intro i hi
    simp at hi
    rcases hi with rfl | rfl | hi | rfl
    · intro x hx
      simp [Instr.regOperands] at hx
      rcases hx with rfl | rfl <;> simp [physRegs]
    · intro x hx
      simp [Instr.regOperands] at hx
      rcases hx with rfl | rfl <;> simp [physRegs]
    · exact hls i hi
    · intro x hx
      simp [Instr.regOperands] at hx
      rcases hx with rfl | rfl
      · simp [physRegs]
      · exact hsrc

theorem handleBranch_phys (st : RAState) (rs1 rs2 : String) (lab : Option Nat)
    (code : List Instr) (st' : RAState)
    (h : handleBranch st rs1 rs2 lab = some (code, st')) :
    1 ≤ code.length ∧ ∀ i ∈ code, i.physOperands := by
  simp only [handleBranch, Option.bind_eq_bind, Option.bind_eq_some, bind] at h
  obtain ⟨⟨r1, l1⟩, hload1, h⟩ := h
  obtain ⟨⟨r2, l2⟩, hload2, h⟩ := h
  simp only [Option.some_inj, Prod.mk.injEq] at h
  obtain ⟨rfl, rfl⟩ := h
  obtain ⟨hr1, hl1⟩ := raLoad_phys _ _ _ _ _ (by simp [physRegs]) hload1
  obtain ⟨hr2, hl2⟩ := raLoad_phys _ _ _ _ _ (by simp [physRegs]) hload2
  refine ⟨by simp <;> omega, ?_⟩
  intro i hi
  simp at hi
  rcases hi with hi | hi | rfl
  · exact hl1 i hi
  · exact hl2 i hi
  · intro x hx
    simp [Instr.regOperands] at hx
    rcases hx with rfl | rfl
    · exact hr1
    · exact hr2

theorem handleMemoryOp_phys (st : RAState) (i0 : Instr)
    (code : List Instr) (st' : RAState)
    (h : handleMemoryOp st i0 = some (code, st')) :
    1 ≤ code.length ∧ ∀ i ∈ code, i.physOperands := by
  match i0 with
  | .lw rs1 offset reg =>
    simp only [handleMemoryOp, Option.bind_eq_bind, Option.bind_eq_some, bind] at h
    obtain ⟨⟨base, lb⟩, hload, h⟩ := h
    obtain ⟨sc, hstore, h⟩ := h
    simp only [Option.some_inj, Prod.mk.injEq] at h
    obtain ⟨rfl, rfl⟩ := h
    obtain ⟨hbase, hlb⟩ := raLoad_phys _ _ _ _ _ (by simp [physRegs]) hload
    have hsc := raStore_phys _ _ _ _ (dest_phys reg) hstore
    refine ⟨by simp <;> omega, ?_⟩
    intro i hi
    simp at hi
    rcases hi with hi | rfl | hi
    · exact hlb i hi
    · intro x hx
      simp [Instr.regOperands] at hx
      rcases hx with rfl | rfl
      · exact hbase
      · exact dest_phys reg
    · exact hsc i hi
  | .sw rs1 offset reg =>
    simp only [handleMemoryOp, Option.bind_eq_bind, Option.bind_eq_some, bind] at h
    obtain ⟨⟨val, lv⟩, hload1, h⟩ := h
    obtain ⟨⟨base, lb⟩, hload2, h⟩ := h
    simp only [Option.some_inj, Prod.mk.injEq] at h
    obtain ⟨rfl, rfl⟩ := h
    obtain ⟨hval, hlv⟩ := raLoad_phys _ _ _ _ _ (by simp [physRegs]) hload1
    obtain ⟨hbase, hlb⟩ := raLoad_phys _ _ _ _ _ (by simp [physRegs]) hload2
    refine ⟨by simp <;> omega, ?_⟩
    intro i hi
    simp at hi
    rcases hi with hi | hi | rfl
    · exact hlv i hi
    · exact hlb i hi
    · intro x hx
      simp [Instr.regOperands] at hx
      rcases hx with rfl | rfl
      · exact hbase
      · exact hval

theorem allocOne_phys (pcSnap : Nat) (st : RAState) (i0 : Instr)
    (code : List Instr) (st' : RAState)
    (h : allocOne pcSnap st i0 = some (code, st')) :
    1 ≤ code.length ∧ ∀ i ∈ code, i.physOperands := by
  cases i0 with
  | addi rd rs1 imm =>
      exact handleBinImmediate_phys st .addi rd rs1 imm code st' (fun _ _ _ => rfl) h
  | xori rd rs1 imm =>
      exact handleBinImmediate_phys st .xori rd rs1 imm code st' (fun _ _ _ => rfl) h
  | slti rd rs1 imm =>
      exact handleBinImmediate_phys st .slti rd rs1 imm code st' (fun _ _ _ => rfl) h
  | add rd rs1 rs2 =>
      exact handleBinStandard_phys st .add rd rs1 rs2 code st' (fun _ _ _ => rfl) h
  | sub rd rs1 rs2 =>
      exact handleBinStandard_phys st .sub rd rs1 rs2 code st' (fun _ _ _ => rfl) h
  | mul rd rs1 rs2 =>
      exact handleBinStandard_phys st .mul rd rs1 rs2 code st' (fun _ _ _ => rfl) h
  | div rd rs1 rs2 =>
      exact handleBinStandard_phys st .div rd rs1 rs2 code st' (fun _ _ _ => rfl) h
  | xor rd rs1 rs2 =>
      exact handleBinStandard_phys st .xor rd rs1 rs2 code st' (fun _ _ _ => rfl) h
  | slt rd rs1 rs2 =>
      exact handleBinStandard_phys st .slt rd rs1 rs2 code st' (fun _ _ _ => rfl) h
  | jal rd lab => exact handleJal_phys _ _ _ _ _ _ h
  | jalr rd rs offset => exact handleJalr_phys _ _ _ _ _ _ _ h
  | beq rs1 rs2 lab => exact handleBranch_phys _ _ _ _ _ _ h
  | lw rs1 offset reg => exact handleMemoryOp_phys st (.lw rs1 offset reg) code st' h
  | sw rs1 offset reg => exact handleMemoryOp_phys st (.sw rs1 offset reg) code st' h

theorem allocList_phys (pcSnap : Nat) :
    ∀ (l : List Instr) (st : RAState) (out : List Instr) (st' : RAState),
      allocList pcSnap st l = some (out, st') →
      l.length ≤ out.length ∧ ∀ i ∈ out, i.physOperands := by
  intro l
  induction l with
  | nil =>
      intro st out st' h
      simp [allocList] at h
      obtain ⟨rfl, rfl⟩ := h
      simp
  | cons i0 l ih =>
      intro st out st' h
      simp only [allocList, Option.bind_eq_bind, Option.bind_eq_some, bind] at h
      obtain ⟨⟨code, st1⟩, hone, h⟩ := h
      obtain ⟨⟨rest, st2⟩, hrest, h⟩ := h
      simp only [Option.some_inj, Prod.mk.injEq] at h
      obtain ⟨rfl, rfl⟩ := h
      obtain ⟨h1, h2⟩ := allocOne_phys _ _ _ _ _ hone
      obtain ⟨h3, h4⟩ := ih _ _ _ hrest
      constructor
      · simp; omega
      · intro i hi
        simp at hi
        rcases hi with hi | hi
        · exact h2 i hi
        · exact h4 i hi

/-- C7, amended: the rewritten instruction list is at least as long as the
input (each handled instruction contributes at least one instruction, but
an instruction whose operands are all default registers is kept as is, so
strict growth does not always hold), and every register operand of every
rewritten instruction is drawn from the physical register file
{x0, sp, ra, a0, a1, a2, a3} — never a symbolic variable name. -/
theorem alloc_length_and_physical_operands (l : List Instr) (pcSnap : Nat)
    (out : List Instr) (st' : RAState)
    (h : allocList pcSnap RAState.init l = some (out, st')) :
    l.length ≤ out.length ∧ ∀ i ∈ out, i.physOperands :=
  allocList_phys pcSnap l RAState.init out st' h

/-- Witness for the amended C7 on the three-instruction doctest program. -/
theorem alloc_length_and_physical_operands_witness :
    [Instr.addi "a" "x0" 3, Instr.addi "b" "x0" 4, Instr.add "c" "a" "b"].length
        ≤ [Instr.addi "a0" "x0" 3, Instr.sw "x0" 1 "a0",
           Instr.addi "a0" "x0" 4, Instr.sw "x0" 2 "a0",
           Instr.lw "x0" 1 "a0", Instr.lw "x0" 2 "a1",
           Instr.add "a0" "a0" "a1", Instr.sw "x0" 3 "a0"].length
    ∧ ∀ i ∈ [Instr.addi "a0" "x0" 3, Instr.sw "x0" 1 "a0",
           Instr.addi "a0" "x0" 4, Instr.sw "x0" 2 "a0",
           Instr.lw "x0" 1 "a0", Instr.lw "x0" 2 "a1",
           Instr.add "a0" "a0" "a1", Instr.sw "x0" 3 "a0"], i.physOperands :=
  alloc_length_and_physical_operands
    [Instr.addi "a" "x0" 3, Instr.addi "b" "x0" 4, Instr.add "c" "a" "b"] 0
    [Instr.addi "a0" "x0" 3, Instr.sw "x0" 1 "a0",
     Instr.addi "a0" "x0" 4, Instr.sw "x0" 2 "a0",
     Instr.lw "x0" 1 "a0", Instr.lw "x0" 2 "a1",
     Instr.add "a0" "a0" "a1", Instr.sw "x0" 3 "a0"]
    ⟨3, fun n => if n = "c" then some 3 else if n = "b" then some 2
      else if n = "a" then some 1 else none⟩ rfl

/-- C8 fails as stated: the register-allocation variant's renamer raises on
a `Var` whose name has no mapping (here the single free variable `x` under
the empty environment), instead of leaving it unchanged. -/
theorem renamer_unmapped_var_raises :
    renameRA (.var "x") (fun _ => none) 0 = none := rfl

/-- C8, amended: the control-flow (and functions) variant's renamer leaves a
`Var` whose name has no mapping unchanged and completes without failing,
while the register-allocation variant's renamer raises `ValueError` on it. -/
theorem renamer_unmapped_var_permissive (x : String) (m : String → Option String)
    (c s : Nat) (hm : m x = none) :
    renameCF (.var x) m c = some (.var x, c) ∧ renameRA (.var x) m s = none := by
  constructor
  · simp [renameCF, hm]
  · simp [renameRA, hm]

/-- Witness for the amended C8 at the variable `x` and the empty map. -/
theorem renamer_unmapped_var_permissive_witness :
    renameCF (.var "x") (fun _ => none) 0 = some (.var "x", 0)
    ∧ renameRA (.var "x") (fun _ => none) 0 = none :=
  renamer_unmapped_var_permissive "x" (fun _ => none) 0 0 rfl

/-- C6 fails as stated: generating code for `let x <- 2 in x` with the
control-flow generator executes the program built so far and writes the
value 2 into the Program's variable table under `x`, which was unbound in
the input program. -/
theorem codegen_writes_variable_table :
    ((genCF (.letE "x" (.num 2) (.var "x")) ⟨[], initEnv 1000, fun _ => 0, 0⟩ 0).map
      fun r => r.2.1.env "x") = some (some 2)
    ∧ initEnv 1000 "x" = none := by
  constructor
  · decide
  · rfl

theorem eval_insts (p p' : Program) (h : p.eval = some p') : p'.insts = p.insts := by
  simp only [Program.eval, Option.map_eq_some'] at h
  obtain ⟨s, _, rfl⟩ := h
  rfl

theorem setTargetAt_append (pre l : List Instr) (k t : Nat) :
    setTargetAt (pre ++ l) (pre.length + k) t = pre ++ setTargetAt l k t := by
  unfold setTargetAt
  rw [List.getElem?_append_right (by omega)]
  simp only [Nat.add_sub_cancel_left]
  cases h : l[k]? with
  | none => rfl
  | some i =>
    simp only
    rw [List.set_append_right _ _ (by omega)]
    simp

theorem instExt_refl (l : List Instr) : InstExt l l := ⟨[], by simp⟩

theorem instExt_trans {l1 l2 l3 : List Instr} (h1 : InstExt l1 l2)
    (h2 : InstExt l2 l3) : InstExt l1 l3 := by
  obtain ⟨a, rfl⟩ := h1
  obtain ⟨b, rfl⟩ := h2
  exact ⟨a ++ b, by simp⟩

theorem instExt_snoc {l l' : List Instr} (i : Instr) (h : InstExt l l') :
    InstExt l (l' ++ [i]) := by
  obtain ⟨a, rfl⟩ := h
  exact ⟨a ++ [i], by simp⟩

theorem instExt_length {l l' : List Instr} (h : InstExt l l') :
    l.length ≤ l'.length := by
  obtain ⟨a, rfl⟩ := h
  simp

theorem instExt_setTargetAt {l l' : List Instr} (idx t : Nat)
    (h : InstExt l l') (hidx : l.length ≤ idx) :
    InstExt l (setTargetAt l' idx t) := by
  obtain ⟨a, rfl⟩ := h
  have : idx = l.length + (idx - l.length) := by omega
  rw [this, setTargetAt_append]
  exact ⟨_, rfl⟩

theorem genCF_appends :
    ∀ (e : Expr) (p : Program) (c : Nat) (v : String) (p' : Program) (c' : Nat),
      genCF e p c = some (v, p', c') → InstExt p.insts p'.insts := by
  intro e
  induction e with
  | var x =>
      intro p c v p' c' h
      simp only [genCF, Option.some_inj, Prod.mk.injEq] at h
      obtain ⟨rfl, rfl, rfl⟩ := h
      exact instExt_refl _
  | bln b =>
      intro p c v p' c' h
      simp only [genCF, Option.some_inj, Prod.mk.injEq] at h
      obtain ⟨rfl, rfl, rfl⟩ := h
      exact instExt_snoc _ (instExt_refl _)
  | num n =>
      intro p c v p' c' h
      simp only [genCF, Option.some_inj, Prod.mk.injEq] at h
      obtain ⟨rfl, rfl, rfl⟩ := h
      exact instExt_snoc _ (instExt_refl _)
  | eql l r ihl ihr =>
      intro p c v p' c' h
      simp only [genCF, Option.bind_eq_bind, Option.bind_eq_some, bind] at h
      obtain ⟨⟨lv, p1, c1⟩, hl, ⟨⟨rv, p2, c2⟩, hr, h⟩⟩ := h
      simp only [Option.some_inj, Prod.mk.injEq] at h
      obtain ⟨rfl, rfl, rfl⟩ := h
      exact instExt_snoc _ (instExt_snoc _ (instExt_snoc _ (instExt_snoc _
        (instExt_trans (ihl _ _ _ _ _ hl) (ihr _ _ _ _ _ hr)))))
  | andE l r ihl ihr =>
      intro p c v p' c' h
      simp only [genCF, Option.bind_eq_bind, Option.bind_eq_some, bind] at h
      obtain ⟨⟨lv, p1, c1⟩, hl, ⟨⟨rv, p3, c2⟩, hr, h⟩⟩ := h
      simp only [Option.some_inj, Prod.mk.injEq] at h
      obtain ⟨rfl, rfl, rfl⟩ := h
      have e1 : InstExt p.insts p1.insts := ihl _ _ _ _ _ hl
      have e2 : InstExt p.insts (p1.addInst (.beq lv "x0" none)).insts :=
        instExt_snoc _ e1
      have e3 : InstExt p.insts p3.insts := instExt_trans e2 (ihr _ _ _ _ _ hr)
      have e4 : InstExt p.insts
          ((p3.addInst (.add (newVar c1) rv "x0")).addInst (.jal "x0" none)).insts :=
        instExt_snoc _ (instExt_snoc _ e3)
      have e5 := instExt_setTargetAt (p1.insts.length)
        (((p3.addInst (.add (newVar c1) rv "x0")).addInst (.jal "x0" none)).insts.length)
        e4 (instExt_length e1)
      have e6 := instExt_snoc (Instr.addi (newVar c1) "x0" 0) e5
      have e7 := instExt_setTargetAt ((p3.addInst (.add (newVar c1) rv "x0")).insts.length)
        ((setTargetAt
            ((p3.addInst (.add (newVar c1) rv "x0")).addInst (.jal "x0" none)).insts
            p1.insts.length
            (((p3.addInst (.add (newVar c1) rv "x0")).addInst (.jal "x0" none)).insts.length)
          ++ [Instr.addi (newVar c1) "x0" 0]).length) e6
        (le_trans (instExt_length e3) (by simp [Program.addInst]))
      exact e7
  | orE l r ihl ihr =>
      intro p c v p' c' h
      simp only [genCF, Option.bind_eq_bind, Option.bind_eq_some, bind] at h
      obtain ⟨⟨lv, p1, c1⟩, hl, h⟩ := h
      obtain ⟨⟨rv, p6, c2⟩, hr, h⟩ := h
      simp only [Option.some_inj, Prod.mk.injEq] at h
      obtain ⟨rfl, rfl, rfl⟩ := h
      have e1 : InstExt p.insts p1.insts := ihl _ _ _ _ _ hl
      have e2 : InstExt p.insts
          (((p1.addInst (.beq lv "x0" none)).addInst
            (.addi (newVar c1) "x0" 1)).addInst (.jal "x0" none)).insts :=
        instExt_snoc _ (instExt_snoc _ (instExt_snoc _ e1))
      have e3 := instExt_setTargetAt (p1.insts.length)
        ((((p1.addInst (.beq lv "x0" none)).addInst
            (.addi (newVar c1) "x0" 1)).addInst (.jal "x0" none)).insts.length)
        e2 (instExt_length e1)
      have e4 : InstExt p.insts p6.insts := instExt_trans e3 (ihr _ _ _ _ _ hr)
      have e5 := instExt_snoc (Instr.add (newVar c1) rv "x0") e4
      have e6 := instExt_setTargetAt
        (((p1.addInst (.beq lv "x0" none)).addInst (.addi (newVar c1) "x0" 1)).insts.length)
        ((p6.insts ++ [Instr.add (newVar c1) rv "x0"]).length) e5
        (le_trans (instExt_length e1) (by simp [Program.addInst]))
      exact e6
  | add l r ihl ihr =>
      intro p c v p' c' h
      simp only [genCF, Option.bind_eq_bind, Option.bind_eq_some, bind] at h
      obtain ⟨⟨lv, p1, c1⟩, hl, ⟨⟨rv, p2, c2⟩, hr, h⟩⟩ := h
      simp only [Option.some_inj, Prod.mk.injEq] at h
      obtain ⟨rfl, rfl, rfl⟩ := h
      exact instExt_snoc _ (instExt_trans (ihl _ _ _ _ _ hl) (ihr _ _ _ _ _ hr))
  | sub l r ihl ihr =>
      intro p c v p' c' h
      simp only [genCF, Option.bind_eq_bind, Option.bind_eq_some, bind] at h
      obtain ⟨⟨lv, p1, c1⟩, hl, ⟨⟨rv, p2, c2⟩, hr, h⟩⟩ := h
      simp only [Option.some_inj, Prod.mk.injEq] at h
      obtain ⟨rfl, rfl, rfl⟩ := h
      exact instExt_snoc _ (instExt_trans (ihl _ _ _ _ _ hl) (ihr _ _ _ _ _ hr))
  | mul l r ihl ihr =>
      intro p c v p' c' h
      simp only [genCF, Option.bind_eq_bind, Option.bind_eq_some, bind] at h
      obtain ⟨⟨lv, p1, c1⟩, hl, ⟨⟨rv, p2, c2⟩, hr, h⟩⟩ := h
      simp only [Option.some_inj, Prod.mk.injEq] at h
      obtain ⟨rfl, rfl, rfl⟩ := h
      exact instExt_snoc _ (instExt_trans (ihl _ _ _ _ _ hl) (ihr _ _ _ _ _ hr))
  | div l r ihl ihr =>
      intro p c v p' c' h
      simp only [genCF, Option.bind_eq_bind, Option.bind_eq_some, bind] at h
      obtain ⟨⟨lv, p1, c1⟩, hl, ⟨⟨rv, p2, c2⟩, hr, h⟩⟩ := h
      simp only [Option.some_inj, Prod.mk.injEq] at h
      obtain ⟨rfl, rfl, rfl⟩ := h
      exact instExt_snoc _ (instExt_trans (ihl _ _ _ _ _ hl) (ihr _ _ _ _ _ hr))
  | mod l r ihl ihr =>
      intro p c v p' c' h
      simp [genCF] at h
  | leq l r ihl ihr =>
      intro p c v p' c' h
      simp only [genCF, Option.bind_eq_bind, Option.bind_eq_some, bind] at h
      obtain ⟨⟨lv, p1, c1⟩, hl, ⟨⟨rv, p2, c2⟩, hr, h⟩⟩ := h
      simp only [Option.some_inj, Prod.mk.injEq] at h
      obtain ⟨rfl, rfl, rfl⟩ := h
      exact instExt_snoc _ (instExt_snoc _
        (instExt_trans (ihl _ _ _ _ _ hl) (ihr _ _ _ _ _ hr)))
  | lth l r ihl ihr =>
      intro p c v p' c' h
      simp only [genCF, Option.bind_eq_bind, Option.bind_eq_some, bind] at h
      obtain ⟨⟨lv, p1, c1⟩, hl, ⟨⟨rv, p2, c2⟩, hr, h⟩⟩ := h
      simp only [Option.some_inj, Prod.mk.injEq] at h
      obtain ⟨rfl, rfl, rfl⟩ := h
      exact instExt_snoc _ (instExt_trans (ihl _ _ _ _ _ hl) (ihr _ _ _ _ _ hr))
  | neg e ih =>
      intro p c v p' c' h
      simp only [genCF, Option.bind_eq_bind, Option.bind_eq_some, bind] at h
      obtain ⟨⟨ev, p1, c1⟩, he, h⟩ := h
      simp only [Option.some_inj, Prod.mk.injEq] at h
      obtain ⟨rfl, rfl, rfl⟩ := h
      exact instExt_snoc _ (ih _ _ _ _ _ he)
  | notE e ih =>
      intro p c v p' c' h
      simp only [genCF, Option.bind_eq_bind, Option.bind_eq_some, bind] at h
      obtain ⟨⟨ev, p1, c1⟩, he, h⟩ := h
      simp only [Option.some_inj, Prod.mk.injEq] at h
      obtain ⟨rfl, rfl, rfl⟩ := h
      exact instExt_snoc _ (instExt_snoc _ (instExt_snoc _ (instExt_snoc _
        (ih _ _ _ _ _ he))))
  | letE x d b ihd ihb =>
      intro p c v p' c' h
      simp only [genCF, Option.bind_eq_bind, Option.bind_eq_some, bind] at h
      obtain ⟨⟨dv, p1, c1⟩, hd, h⟩ := h
      obtain ⟨p2, hev, h⟩ := h
      obtain ⟨val, hval, h⟩ := h
      have e1 : InstExt p.insts p1.insts := ihd _ _ _ _ _ hd
      have e2 : p2.insts = p1.insts := eval_insts _ _ hev
      have e3 : InstExt p.insts ({ p2 with env := p2.env.set x val } : Program).insts := by
        simpa [e2] using e1
      exact instExt_trans e3 (ihb _ _ _ _ _ h)
  | ifThenElse cond e0 e1 ihc ih0 ih1 =>
      intro p c v p' c' h
      simp only [genCF, Option.bind_eq_bind, Option.bind_eq_some, bind] at h
      obtain ⟨⟨cv, p1, c1⟩, hc, h⟩ := h
      obtain ⟨⟨tv, p3, c2⟩, ht, h⟩ := h
      obtain ⟨⟨ev, p7, c3⟩, he, h⟩ := h
      simp only [Option.some_inj, Prod.mk.injEq] at h
      obtain ⟨rfl, rfl, rfl⟩ := h
      have x1 : InstExt p.insts p1.insts := ihc _ _ _ _ _ hc
      have x2 : InstExt p.insts p3.insts :=
        instExt_trans (instExt_snoc _ x1) (ih0 _ _ _ _ _ ht)
      have x3 : InstExt p.insts
          ((p3.addInst (.add (newVar c1) tv "x0")).addInst (.jal "x0" none)).insts :=
        instExt_snoc _ (instExt_snoc _ x2)
      have x4 := instExt_setTargetAt (p1.insts.length)
        (((p3.addInst (.add (newVar c1) tv "x0")).addInst (.jal "x0" none)).insts.length)
        x3 (instExt_length x1)
      have x5 : InstExt p.insts p7.insts := instExt_trans x4 (ih1 _ _ _ _ _ he)
      have x6 := instExt_snoc (Instr.add (newVar c1) ev "x0") x5
      have x7 := instExt_setTargetAt
        ((p3.addInst (.add (newVar c1) tv "x0")).insts.length)
        ((p7.insts ++ [Instr.add (newVar c1) ev "x0"]).length) x6
        (le_trans (instExt_length x2) (by simp [Program.addInst]))
      exact x7
  | fn formal body ih =>
      intro p c v p' c' h
      simp [genCF] at h
  | app g actual ihg iha =>
      intro p c v p' c' h
      simp [genCF] at h

/-- C6, amended: the only mutation the control-flow code generator performs
on the Program's instruction list is appending new instructions (forward
branch targets are filled in while the instructions in question are still
being appended, before the visit returns), so the instructions present
before a visit are never modified, reordered or removed; however,
`visit_let` additionally executes the program built so far and writes the
bound value into the Program's variable table. -/
theorem codegen_extends_instruction_list (e : Expr) (p : Program) (c : Nat)
    (v : String) (p' : Program) (c' : Nat) (h : genCF e p c = some (v, p', c')) :
    ∃ code, p'.insts = p.insts ++ code :=
  genCF_appends e p c v p' c' h

/-- Witness for the amended C6 on `And(False, True)` over the empty
program. -/
theorem codegen_extends_instruction_list_witness :
    ∃ code, [Instr.addi "v1" "x0" 0, Instr.beq "v1" "x0" (some 5),
      Instr.addi "v3" "x0" 1, Instr.add "v2" "v3" "x0",
      Instr.jal "x0" (some 6), Instr.addi "v2" "x0" 0]
      = ([] : List Instr) ++ code :=
  codegen_extends_instruction_list (.andE (.bln false) (.bln true))
    ⟨[], initEnv 1000, fun _ => 0, 0⟩ 0 "v2"
    ⟨[Instr.addi "v1" "x0" 0, Instr.beq "v1" "x0" (some 5),
      Instr.addi "v3" "x0" 1, Instr.add "v2" "v3" "x0",
      Instr.jal "x0" (some 6), Instr.addi "v2" "x0" 0],
      initEnv 1000, fun _ => 0, 0⟩ 3 rfl

theorem setTargetAt_at_append (pre : List Instr) (i : Instr) (post : List Instr) (t : Nat) :
    setTargetAt (pre ++ i :: post) pre.length t = pre ++ i.withTarget t :: post := by
  unfold setTargetAt
  rw [List.getElem?_append_right (by omega)]
  simp only [Nat.sub_self, List.getElem?_cons_zero]
  rw [List.set_append_right _ _ (by omega)]
  simp

theorem setTargetAt_at_append_idx (pre : List Instr) (i : Instr) (post : List Instr) (k t : Nat)
    (hk : k = pre.length) :
    setTargetAt (pre ++ i :: post) k t = pre ++ i.withTarget t :: post := by
  subst hk; exact setTargetAt_at_append pre i post t

theorem setTargetAt_jal_slot (A R : List Instr) (i0 a j x : Instr) (k t : Nat)
    (hk : k = A.length + R.length + 2) :
    setTargetAt ((A ++ i0 :: (R ++ [a, j])) ++ [x]) k t
      = (A ++ i0 :: (R ++ [a, j.withTarget t])) ++ [x] := by
  have h1 : (A ++ i0 :: (R ++ [a, j])) ++ [x] = (A ++ i0 :: (R ++ [a])) ++ j :: [x] := by simp
  have h2 : (A ++ i0 :: (R ++ [a, j.withTarget t])) ++ [x]
      = (A ++ i0 :: (R ++ [a])) ++ j.withTarget t :: [x] := by simp
  rw [h1, h2, setTargetAt_at_append_idx _ _ _ _ _ (by simp [hk]; omega)]

theorem fetch_at_append (pre : List Instr) (i : Instr) (post : List Instr) (k : Nat)
    (hk : k = pre.length) : (pre ++ i :: post)[k]? = some i := by
  subst hk
  rw [List.getElem?_append_right (by omega)]
  simp

theorem and_block_exec (A : List Instr) (lv v rv : String) (rcode : List Instr)
    (P : List Instr) (T E : Nat)
    (hP : P = (A ++ Instr.beq lv "x0" (some T) ::
      (rcode ++ [Instr.add v rv "x0", Instr.jal "x0" (some E)])) ++ [Instr.addi v "x0" 0])
    (hT : T = A.length + rcode.length + 3) (hE : E = T + 1)
    (env : Env) (mem : Int → Int) (henv : getVal env lv = some 0) :
    stepN P 2 ⟨env, mem, A.length⟩ = some ⟨setVal env v 0, mem, E⟩ := by
  subst hE
  have h1 : P[A.length]? = some (Instr.beq lv "x0" (some T)) := by
    rw [hP]
    have : (A ++ Instr.beq lv "x0" (some T) ::
        (rcode ++ [Instr.add v rv "x0", Instr.jal "x0" (some (T + 1))])) ++
        [Instr.addi v "x0" 0]
        = A ++ Instr.beq lv "x0" (some T) ::
          ((rcode ++ [Instr.add v rv "x0", Instr.jal "x0" (some (T + 1))]) ++
           [Instr.addi v "x0" 0]) := by simp
    rw [this]
    exact fetch_at_append _ _ _ _ rfl
  have h2 : P[T]? = some (Instr.addi v "x0" 0) := by
    rw [hP]
    exact fetch_at_append _ _ _ _ (by simp [hT]; omega)
  simp [stepN, instStep, h1, h2, henv, setVal, getVal_x0]
theorem genCF_and_shape (l r : Expr) (p : Program) (c : Nat)
    (v : String) (p' : Program) (c' : Nat)
    (h : genCF (.andE l r) p c = some (v, p', c')) :
    ∃ lv rv lc rcode T E,
      T = p.insts.length + lc.length + rcode.length + 3 ∧
      E = T + 1 ∧
      p'.insts = ((p.insts ++ lc) ++ Instr.beq lv "x0" (some T) ::
        (rcode ++ [Instr.add v rv "x0", Instr.jal "x0" (some E)])) ++
        [Instr.addi v "x0" 0] ∧
      (∀ env mem, getVal env lv = some 0 →
        stepN p'.insts 2 ⟨env, mem, p.insts.length + lc.length⟩ =
          some ⟨setVal env v 0, mem, E⟩) := by
  simp only [genCF, Option.bind_eq_bind, Option.bind_eq_some, bind] at h
  obtain ⟨⟨lv, p1, c1⟩, hl, ⟨⟨rv, p3, c2⟩, hr, h⟩⟩ := h
  simp only [Option.some_inj, Prod.mk.injEq] at h
  obtain ⟨rfl, hp, rfl⟩ := h
  obtain ⟨lc, hlc⟩ := genCF_appends l p c lv p1 c1 hl
  obtain ⟨rcode, hrc⟩ := genCF_appends r _ _ rv p3 c2 hr
  simp only [Program.addInst] at hrc hp
  rw [hrc] at hp
  simp only [List.append_assoc, List.cons_append, List.nil_append, List.singleton_append,
    List.length_append, List.length_cons, List.length_nil] at hp
  rw [setTargetAt_at_append] at hp
  simp only [Instr.withTarget] at hp
  rw [setTargetAt_jal_slot p1.insts rcode _ _ _ _ _ _ (by omega)] at hp
  simp only [Instr.withTarget] at hp
  obtain ⟨T0, hT0⟩ : ∃ T0, p1.insts.length + (rcode.length + (0 + 1 + 1) + 1) = T0 := ⟨_, rfl⟩
  rw [hT0] at hp
  obtain ⟨E0, hE0⟩ : ∃ E0, (p1.insts ++ Instr.beq lv "x0" (some T0) ::
      (rcode ++ [Instr.add (newVar c1) rv "x0", Instr.jal "x0" none])).length + (0 + 1) = E0 :=
    ⟨_, rfl⟩
  rw [hE0] at hp
  have hpinsts : p'.insts = (p1.insts ++ Instr.beq lv "x0" (some T0) ::
      (rcode ++ [Instr.add (newVar c1) rv "x0", Instr.jal "x0" (some E0)])) ++
      [Instr.addi (newVar c1) "x0" 0] := by rw [← hp]
  have hT : T0 = p.insts.length + lc.length + rcode.length + 3 := by
    rw [← hT0]; simp [hlc] <;> omega
  have hE : E0 = T0 + 1 := by
    rw [← hE0, ← hT0]; simp <;> omega
  have hIn : p'.insts = ((p.insts ++ lc) ++ Instr.beq lv "x0" (some T0) ::
      (rcode ++ [Instr.add (newVar c1) rv "x0", Instr.jal "x0" (some E0)])) ++
      [Instr.addi (newVar c1) "x0" 0] := by rw [hpinsts, hlc]
  refine ⟨lv, rv, lc, rcode, T0, E0, hT, hE, hIn, ?_⟩
  intro env mem henv
  have hstep := and_block_exec (p.insts ++ lc) lv (newVar c1) rv rcode p'.insts T0 E0 hIn
    (by rw [hT]; simp) hE env mem henv
  simpa using hstep


theorem setTargetAt_third_slot (A : List Instr) (i0 i1 j : Instr) (post : List Instr) (k t : Nat)
    (hk : k = A.length + 2) :
    setTargetAt (A ++ i0 :: i1 :: j :: post) k t = A ++ i0 :: i1 :: j.withTarget t :: post := by
  have h1 : A ++ i0 :: i1 :: j :: post = (A ++ [i0, i1]) ++ j :: post := by simp
  have h2 : A ++ i0 :: i1 :: j.withTarget t :: post
      = (A ++ [i0, i1]) ++ j.withTarget t :: post := by simp
  rw [h1, h2, setTargetAt_at_append_idx _ _ _ _ _ (by simp [hk] <;> omega)]

theorem or_block_exec (A : List Instr) (lv v rv : String) (rcode : List Instr)
    (P : List Instr) (T E : Nat)
    (hP : P = A ++ Instr.beq lv "x0" (some T) :: Instr.addi v "x0" 1 ::
      Instr.jal "x0" (some E) :: (rcode ++ [Instr.add v rv "x0"]))
    (env : Env) (mem : Int → Int) (k : Int)
    (henv : getVal env lv = some k) (hk : k ≠ 0) :
    stepN P 3 ⟨env, mem, A.length⟩ = some ⟨setVal env v 1, mem, E⟩ := by
  have h1 : P[A.length]? = some (Instr.beq lv "x0" (some T)) := by
    rw [hP]; exact fetch_at_append _ _ _ _ rfl
  have h2 : P[A.length + 1]? = some (Instr.addi v "x0" 1) := by
    rw [hP]
    have : A ++ Instr.beq lv "x0" (some T) :: Instr.addi v "x0" 1 ::
        Instr.jal "x0" (some E) :: (rcode ++ [Instr.add v rv "x0"])
        = (A ++ [Instr.beq lv "x0" (some T)]) ++ Instr.addi v "x0" 1 ::
          Instr.jal "x0" (some E) :: (rcode ++ [Instr.add v rv "x0"]) := by simp
    rw [this]
    exact fetch_at_append _ _ _ _ (by simp)
  have h3 : P[A.length + 2]? = some (Instr.jal "x0" (some E)) := by
    rw [hP]
    have : A ++ Instr.beq lv "x0" (some T) :: Instr.addi v "x0" 1 ::
        Instr.jal "x0" (some E) :: (rcode ++ [Instr.add v rv "x0"])
        = (A ++ [Instr.beq lv "x0" (some T), Instr.addi v "x0" 1]) ++
          Instr.jal "x0" (some E) :: (rcode ++ [Instr.add v rv "x0"]) := by simp
    rw [this]
    exact fetch_at_append _ _ _ _ (by simp)
  simp [stepN, instStep, h1, h2, h3, henv, hk, setVal, getVal_x0, getVal_setVal_other]

theorem genCF_or_shape (l r : Expr) (p : Program) (c : Nat)
    (v : String) (p' : Program) (c' : Nat)
    (h : genCF (.orE l r) p c = some (v, p', c')) :
    ∃ lv rv lc rcode T E,
      T = p.insts.length + lc.length + 3 ∧
      E = p.insts.length + lc.length + rcode.length + 4 ∧
      p'.insts = (p.insts ++ lc) ++ Instr.beq lv "x0" (some T) ::
        Instr.addi v "x0" 1 :: Instr.jal "x0" (some E) ::
        (rcode ++ [Instr.add v rv "x0"]) ∧
      (∀ env mem k, getVal env lv = some k → k ≠ 0 →
        stepN p'.insts 3 ⟨env, mem, p.insts.length + lc.length⟩ =
          some ⟨setVal env v 1, mem, E⟩) := by
  simp only [genCF, Option.bind_eq_bind, Option.bind_eq_some, bind] at h
  obtain ⟨⟨lv, p1, c1⟩, hl, ⟨⟨rv, p6, c2⟩, hr, h⟩⟩ := h
  simp only [Option.some_inj, Prod.mk.injEq] at h
  obtain ⟨rfl, hp, rfl⟩ := h
  obtain ⟨lc, hlc⟩ := genCF_appends l p c lv p1 c1 hl
  obtain ⟨rcode, hrc⟩ := genCF_appends r _ _ rv p6 c2 hr
  simp only [Program.addInst] at hrc hp
  simp only [List.append_assoc, List.cons_append, List.nil_append, List.singleton_append,
    List.length_append, List.length_cons, List.length_nil] at hrc hp
  rw [setTargetAt_at_append] at hrc
  simp only [Instr.withTarget] at hrc
  rw [hrc] at hp
  simp only [List.append_assoc, List.cons_append, List.nil_append, List.singleton_append,
    List.length_append, List.length_cons, List.length_nil] at hp
  rw [setTargetAt_third_slot p1.insts _ _ _ _ _ _ (by omega)] at hp
  simp only [Instr.withTarget] at hp
  obtain ⟨T0, hT0⟩ : ∃ T0, p1.insts.length + (0 + 1 + 1 + 1) = T0 := ⟨_, rfl⟩
  rw [hT0] at hp
  obtain ⟨E0, hE0⟩ : ∃ E0, p1.insts.length + (rcode.length + 1 + 1 + 1) + (0 + 1) = E0 := ⟨_, rfl⟩
  rw [hE0] at hp
  have hpinsts : p'.insts = p1.insts ++ Instr.beq lv "x0" (some T0) ::
      Instr.addi (newVar c1) "x0" 1 :: Instr.jal "x0" (some E0) ::
      (rcode ++ [Instr.add (newVar c1) rv "x0"]) := by rw [← hp]
  have hT : T0 = p.insts.length + lc.length + 3 := by
    subst hT0; simp only [hlc, List.length_append]; try omega
  have hE : E0 = p.insts.length + lc.length + rcode.length + 4 := by
    subst hE0; simp only [hlc, List.length_append]; try omega
  have hIn : p'.insts = (p.insts ++ lc) ++ Instr.beq lv "x0" (some T0) ::
      Instr.addi (newVar c1) "x0" 1 :: Instr.jal "x0" (some E0) ::
      (rcode ++ [Instr.add (newVar c1) rv "x0"]) := by rw [hpinsts, hlc]
  refine ⟨lv, rv, lc, rcode, T0, E0, hT, hE, hIn, ?_⟩
  intro env mem k henv hk
  have hstep := or_block_exec (p.insts ++ lc) lv (newVar c1) rv rcode p'.insts T0 E0
    (by rw [hIn]; try simp) env mem k henv hk
  simpa using hstep

/-- C2: the generated code for `And(l, r)` short-circuits — it has the shape
left-code, a branch on the left value `lv`, r's code `rcode`, a result move,
a jump, and a final `result := 0`; whenever execution reaches the branch
with `lv = 0` (l evaluated to false), exactly two machine transitions lead
past the end of the block with the result variable set to 0: the program
counter jumps from the branch directly to the trailing `Addi`, never
entering `rcode`, so r's instructions (in particular a division by zero)
are not executed.  Symmetrically, the code for `Or(l, r)` is left-code,
branch, `result := 1`, jump over `rcode`; whenever the branch is reached
with `lv ≠ 0` (l evaluated to true), exactly three transitions lead past
the end of the block with the result set to 1, never entering `rcode`. -/
theorem short_circuit_and_or
    (l1 r1 : Expr) (q1 : Program) (a1 : Nat) (vA : String) (pA : Program) (cA : Nat)
    (l2 r2 : Expr) (q2 : Program) (a2 : Nat) (vO : String) (pO : Program) (cO : Nat)
    (hA : genCF (.andE l1 r1) q1 a1 = some (vA, pA, cA))
    (hO : genCF (.orE l2 r2) q2 a2 = some (vO, pO, cO)) :
    (∃ lv rv lc rcode T E,
      T = q1.insts.length + lc.length + rcode.length + 3 ∧
      E = T + 1 ∧
      pA.insts = ((q1.insts ++ lc) ++ Instr.beq lv "x0" (some T) ::
        (rcode ++ [Instr.add vA rv "x0", Instr.jal "x0" (some E)])) ++
        [Instr.addi vA "x0" 0] ∧
      (∀ env mem, getVal env lv = some 0 →
        stepN pA.insts 2 ⟨env, mem, q1.insts.length + lc.length⟩ =
          some ⟨setVal env vA 0, mem, E⟩))
    ∧ (∃ lv rv lc rcode T E,
      T = q2.insts.length + lc.length + 3 ∧
      E = q2.insts.length + lc.length + rcode.length + 4 ∧
      pO.insts = (q2.insts ++ lc) ++ Instr.beq lv "x0" (some T) ::
        Instr.addi vO "x0" 1 :: Instr.jal "x0" (some E) ::
        (rcode ++ [Instr.add vO rv "x0"]) ∧
      (∀ env mem k, getVal env lv = some k → k ≠ 0 →
        stepN pO.insts 3 ⟨env, mem, q2.insts.length + lc.length⟩ =
          some ⟨setVal env vO 1, mem, E⟩)) :=
  ⟨genCF_and_shape l1 r1 q1 a1 vA pA cA hA, genCF_or_shape l2 r2 q2 a2 vO pO cO hO⟩

/-- Witness for C2 on `And(False, Div(3, 0))` and `Or(True, Div(3, 0))`
over the empty program, together with the end-to-end runs: both compile and
execute to 0 and 1 respectively even though the right operand divides by
zero. -/
theorem short_circuit_and_or_witness :
    ((∃ lv rv lc rcode T E,
      T = ([] : List Instr).length + lc.length + rcode.length + 3 ∧
      E = T + 1 ∧
      [Instr.addi "v1" "x0" 0, Instr.beq "v1" "x0" (some 7),
       Instr.addi "v3" "x0" 3, Instr.addi "v4" "x0" 0,
       Instr.div "v5" "v3" "v4", Instr.add "v2" "v5" "x0",
       Instr.jal "x0" (some 8), Instr.addi "v2" "x0" 0]
        = ((([] : List Instr) ++ lc) ++ Instr.beq lv "x0" (some T) ::
          (rcode ++ [Instr.add "v2" rv "x0", Instr.jal "x0" (some E)])) ++
          [Instr.addi "v2" "x0" 0] ∧
      (∀ env mem, getVal env lv = some 0 →
        stepN [Instr.addi "v1" "x0" 0, Instr.beq "v1" "x0" (some 7),
          Instr.addi "v3" "x0" 3, Instr.addi "v4" "x0" 0,
          Instr.div "v5" "v3" "v4", Instr.add "v2" "v5" "x0",
          Instr.jal "x0" (some 8), Instr.addi "v2" "x0" 0] 2
          ⟨env, mem, ([] : List Instr).length + lc.length⟩ =
          some ⟨setVal env "v2" 0, mem, E⟩))
    ∧ (∃ lv rv lc rcode T E,
      T = ([] : List Instr).length + lc.length + 3 ∧
      E = ([] : List Instr).length + lc.length + rcode.length + 4 ∧
      [Instr.addi "v1" "x0" 1, Instr.beq "v1" "x0" (some 4),
       Instr.addi "v2" "x0" 1, Instr.jal "x0" (some 8),
       Instr.addi "v3" "x0" 3, Instr.addi "v4" "x0" 0,
       Instr.div "v5" "v3" "v4", Instr.add "v2" "v5" "x0"]
        = (([] : List Instr) ++ lc) ++ Instr.beq lv "x0" (some T) ::
          Instr.addi "v2" "x0" 1 :: Instr.jal "x0" (some E) ::
          (rcode ++ [Instr.add "v2" rv "x0"]) ∧
      (∀ env mem k, getVal env lv = some k → k ≠ 0 →
        stepN [Instr.addi "v1" "x0" 1, Instr.beq "v1" "x0" (some 4),
          Instr.addi "v2" "x0" 1, Instr.jal "x0" (some 8),
          Instr.addi "v3" "x0" 3, Instr.addi "v4" "x0" 0,
          Instr.div "v5" "v3" "v4", Instr.add "v2" "v5" "x0"] 3
          ⟨env, mem, ([] : List Instr).length + lc.length⟩ =
          some ⟨setVal env "v2" 1, mem, E⟩)))
    ∧ ((run [Instr.addi "v1" "x0" 0, Instr.beq "v1" "x0" (some 7),
          Instr.addi "v3" "x0" 3, Instr.addi "v4" "x0" 0,
          Instr.div "v5" "v3" "v4", Instr.add "v2" "v5" "x0",
          Instr.jal "x0" (some 8), Instr.addi "v2" "x0" 0] 8
          ⟨initEnv 1000, fun _ => 0, 0⟩).bind (fun s => getVal s.env "v2") = some 0
      ∧ (run [Instr.addi "v1" "x0" 1, Instr.beq "v1" "x0" (some 4),
          Instr.addi "v2" "x0" 1, Instr.jal "x0" (some 8),
          Instr.addi "v3" "x0" 3, Instr.addi "v4" "x0" 0,
          Instr.div "v5" "v3" "v4", Instr.add "v2" "v5" "x0"] 8
          ⟨initEnv 1000, fun _ => 0, 0⟩).bind (fun s => getVal s.env "v2") = some 1) :=
  ⟨short_circuit_and_or (.bln false) (.div (.num 3) (.num 0))
      ⟨[], initEnv 1000, fun _ => 0, 0⟩ 0 "v2"
      ⟨[Instr.addi "v1" "x0" 0, Instr.beq "v1" "x0" (some 7),
        Instr.addi "v3" "x0" 3, Instr.addi "v4" "x0" 0,
        Instr.div "v5" "v3" "v4", Instr.add "v2" "v5" "x0",
        Instr.jal "x0" (some 8), Instr.addi "v2" "x0" 0],
        initEnv 1000, fun _ => 0, 0⟩ 5
      (.bln true) (.div (.num 3) (.num 0))
      ⟨[], initEnv 1000, fun _ => 0, 0⟩ 0 "v2"
      ⟨[Instr.addi "v1" "x0" 1, Instr.beq "v1" "x0" (some 4),
        Instr.addi "v2" "x0" 1, Instr.jal "x0" (some 8),
        Instr.addi "v3" "x0" 3, Instr.addi "v4" "x0" 0,
        Instr.div "v5" "v3" "v4", Instr.add "v2" "v5" "x0"],
        initEnv 1000, fun _ => 0, 0⟩ 5
      rfl rfl,
    by decide, by decide⟩

theorem toDigitsCore_eq_digits :
    ∀ (f n : Nat) (acc : List Char), 0 < n → n < f →
      Nat.toDigitsCore 10 f n acc = ((Nat.digits 10 n).reverse.map Nat.digitChar) ++ acc := by
  intro f
  induction f with
  | zero => intro n acc h1 h2; omega
  | succ f ih =>
    intro n acc h1 h2
    rw [Nat.toDigitsCore]
    by_cases hd : n / 10 = 0
    · have hn10 : n < 10 := by omega
      simp only [hd, if_true]
      rw [Nat.digits_def' (by norm_num) h1, hd]
      simp [Nat.mod_eq_of_lt hn10]
    · simp only [hd, if_false]
      rw [ih (n / 10) _ (Nat.pos_of_ne_zero hd) (by omega)]
      rw [Nat.digits_def' (by norm_num) h1]
      simp

theorem repr_eq_digits (n : Nat) (hn : 0 < n) :
    Nat.repr n = ((Nat.digits 10 n).reverse.map Nat.digitChar).asString := by
  rw [Nat.repr, Nat.toDigits, toDigitsCore_eq_digits (n + 1) n [] hn (by omega)]
  simp

theorem digitChar_ne_underscore (d : Nat) (hd : d < 10) : Nat.digitChar d ≠ '_' := by
  interval_cases d <;> decide

theorem digitChar_inj_lt (a b : Nat) (ha : a < 10) (hb : b < 10)
    (h : Nat.digitChar a = Nat.digitChar b) : a = b := by
  interval_cases a <;> interval_cases b <;> simp_all <;> exact absurd h (by decide)

theorem underscore_not_in_repr (n : Nat) : '_' ∉ (Nat.repr n).data := by
  rcases Nat.eq_zero_or_pos n with rfl | hn
  · decide
  · rw [repr_eq_digits n hn]
    intro hmem
    simp only [List.asString] at hmem
    simp only [List.mem_map, List.mem_reverse] at hmem
    obtain ⟨d, hd, hchar⟩ := hmem
    exact digitChar_ne_underscore d (Nat.digits_lt_base (by norm_num) hd) hchar

theorem map_digitChar_inj (l1 l2 : List Nat) (h1 : ∀ x ∈ l1, x < 10)
    (h2 : ∀ x ∈ l2, x < 10) (h : l1.map Nat.digitChar = l2.map Nat.digitChar) :
    l1 = l2 := by
  induction l1 generalizing l2 with
  | nil => cases l2 with
    | nil => rfl
    | cons b t => simp at h
  | cons a t ih =>
    cases l2 with
    | nil => simp at h
    | cons b t2 =>
      simp only [List.map_cons, List.cons.injEq] at h
      obtain ⟨hab, ht⟩ := h
      have := digitChar_inj_lt a b (h1 a (by simp)) (h2 b (by simp)) hab
      subst this
      rw [ih t2 (fun x hx => h1 x (by simp [hx])) (fun x hx => h2 x (by simp [hx])) ht]

theorem repr_inj (m n : Nat) (h : Nat.repr m = Nat.repr n) : m = n := by
  rcases Nat.eq_zero_or_pos m with rfl | hm <;> rcases Nat.eq_zero_or_pos n with rfl | hn
  · rfl
  · exfalso
    rw [repr_eq_digits n hn] at h
    have hdata := congrArg String.data h
    simp only [List.asString] at hdata
    have : (Nat.digits 10 n).reverse.map Nat.digitChar = ['0'] := by
      rw [← hdata]; rfl
    have hlen : (Nat.digits 10 n).length = 1 := by
      have := congrArg List.length this
      simpa using this
    obtain ⟨d, hd⟩ := List.length_eq_one.mp hlen
    rw [hd] at this
    simp at this
    have hd10 : d < 10 := Nat.digits_lt_base (by norm_num) (by rw [hd]; simp)
    have : d = 0 := by
      have := digitChar_inj_lt d 0 hd10 (by norm_num) (by simpa using this)
      exact this
    subst this
    have := Nat.ofDigits_digits 10 n
    rw [hd] at this
    simp [Nat.ofDigits] at this
    omega
  · exfalso
    rw [repr_eq_digits m hm] at h
    have hdata := congrArg String.data h
    simp only [List.asString] at hdata
    have : (Nat.digits 10 m).reverse.map Nat.digitChar = ['0'] := by
      rw [hdata]; rfl
    have hlen : (Nat.digits 10 m).length = 1 := by
      have := congrArg List.length this
      simpa using this
    obtain ⟨d, hd⟩ := List.length_eq_one.mp hlen
    rw [hd] at this
    simp at this
    have hd10 : d < 10 := Nat.digits_lt_base (by norm_num) (by rw [hd]; simp)
    have : d = 0 := by
      have := digitChar_inj_lt d 0 hd10 (by norm_num) (by simpa using this)
      exact this
    subst this
    have := Nat.ofDigits_digits 10 m
    rw [hd] at this
    simp [Nat.ofDigits] at this
    omega
  · rw [repr_eq_digits m hm, repr_eq_digits n hn] at h
    have hdata := congrArg String.data h
    simp only [List.asString] at hdata
    have := map_digitChar_inj (Nat.digits 10 m).reverse (Nat.digits 10 n).reverse
      (fun x hx => Nat.digits_lt_base (by norm_num) (List.mem_reverse.mp hx))
      (fun x hx => Nat.digits_lt_base (by norm_num) (List.mem_reverse.mp hx)) hdata
    have hdig : Nat.digits 10 m = Nat.digits 10 n := by
      have := congrArg List.reverse this
      simpa using this
    have h1 := Nat.ofDigits_digits 10 m
    have h2 := Nat.ofDigits_digits 10 n
    rw [hdig] at h1
    omega

theorem underscore_suffix_inj :
    ∀ (a1 : List Char) (b1 : List Char) (a2 b2 : List Char),
      '_' ∉ a1 → '_' ∉ a2 →
      a1 ++ '_' :: b1 = a2 ++ '_' :: b2 → a1 = a2 := by
  intro a1
  induction a1 with
  | nil =>
    intro b1 a2 b2 _ h2 h
    cases a2 with
    | nil => rfl
    | cons c t =>
      simp only [List.nil_append, List.cons_append, List.cons.injEq] at h
      exact absurd (by simp [← h.1]) h2
  | cons c t ih =>
    intro b1 a2 b2 h1 h2 h
    cases a2 with
    | nil =>
      simp only [List.cons_append, List.nil_append, List.cons.injEq] at h
      exact absurd (by simp [h.1]) h1
    | cons c2 t2 =>
      simp only [List.cons_append, List.cons.injEq] at h
      obtain ⟨rfl, h⟩ := h
      rw [ih b1 t2 b2 (fun hm => h1 (by simp [hm])) (fun hm => h2 (by simp [hm])) h]

theorem fresh_name_counter_inj (x1 x2 : String) (c1 c2 : Nat)
    (h : x1 ++ "_" ++ Nat.repr c1 = x2 ++ "_" ++ Nat.repr c2) : c1 = c2 := by
  have hdata := congrArg String.data h
  simp only [String.data_append] at hdata
  have hrev := congrArg List.reverse hdata
  simp only [List.reverse_append, List.reverse_cons, List.reverse_nil, List.nil_append,
    List.append_assoc, List.singleton_append] at hrev
  have hpre := underscore_suffix_inj (Nat.repr c1).data.reverse x1.data.reverse
    (Nat.repr c2).data.reverse x2.data.reverse
    (by intro hm; exact underscore_not_in_repr c1 (List.mem_reverse.mp hm))
    (by intro hm; exact underscore_not_in_repr c2 (List.mem_reverse.mp hm)) hrev
  have : (Nat.repr c1).data = (Nat.repr c2).data := by
    have := congrArg List.reverse hpre
    simpa using this
  exact repr_inj c1 c2 (String.ext this)

theorem binderSpec_disjoint {bl br : List String} {c0 c1 c1' c2 : Nat}
    (hbl : ∀ b ∈ bl, ∃ x k, b = x ++ "_" ++ Nat.repr k ∧ c0 ≤ k ∧ k < c1)
    (hbr : ∀ b ∈ br, ∃ x k, b = x ++ "_" ++ Nat.repr k ∧ c1' ≤ k ∧ k < c2)
    (hc : c1 ≤ c1') : bl.Disjoint br := by
  intro b hb hb'
  obtain ⟨x, k, rfl, hk1, hk2⟩ := hbl b hb
  obtain ⟨x', k', heq, hk1', hk2'⟩ := hbr _ hb'
  have := fresh_name_counter_inj x x' k k' heq
  omega

theorem binderSpec_mono {c c' d d' : Nat} {bs : List String}
    (h : BinderSpec c c' bs) (h1 : d ≤ c) (h2 : c' ≤ d') : BinderSpec d d' bs := by
  obtain ⟨hb, hn⟩ := h
  refine ⟨fun b hbm => ?_, hn⟩
  obtain ⟨x, k, rfl, hk1, hk2⟩ := hb b hbm
  exact ⟨x, k, rfl, by omega, by omega⟩

theorem binderSpec_append {c c1 c2 : Nat} {bl br : List String}
    (h1 : BinderSpec c c1 bl) (h2 : BinderSpec c1 c2 br) (hcc : c ≤ c1) (hcc2 : c1 ≤ c2) :
    BinderSpec c c2 (bl ++ br) := by
  obtain ⟨hb1, hn1⟩ := h1
  obtain ⟨hb2, hn2⟩ := h2
  constructor
  · intro b hb
    rcases List.mem_append.mp hb with hb | hb
    · obtain ⟨x, k, rfl, hk1, hk2⟩ := hb1 b hb
      exact ⟨x, k, rfl, by omega, by omega⟩
    · obtain ⟨x, k, rfl, hk1, hk2⟩ := hb2 b hb
      exact ⟨x, k, rfl, by omega, by omega⟩
  · exact List.Nodup.append hn1 hn2 (binderSpec_disjoint hb1 hb2 le_rfl)

theorem renameCF_binderSpec :
    ∀ (e : Expr) (m : String → Option String) (c : Nat) (e' : Expr) (c' : Nat),
      renameCF e m c = some (e', c') → c ≤ c' ∧ BinderSpec c c' (letBinders e') := by
  intro e
  induction e with
  | var x =>
    intro m c e' c' h
    simp only [renameCF, Option.some_inj, Prod.mk.injEq] at h
    obtain ⟨rfl, rfl⟩ := h
    exact ⟨le_rfl, by simp [letBinders], by simp [letBinders]⟩
  | bln b =>
    intro m c e' c' h
    simp only [renameCF, Option.some_inj, Prod.mk.injEq] at h
    obtain ⟨rfl, rfl⟩ := h
    exact ⟨le_rfl, by simp [letBinders], by simp [letBinders]⟩
  | num n =>
    intro m c e' c' h
    simp only [renameCF, Option.some_inj, Prod.mk.injEq] at h
    obtain ⟨rfl, rfl⟩ := h
    exact ⟨le_rfl, by simp [letBinders], by simp [letBinders]⟩
  | eql l r ihl ihr =>
    intro m c e' c' h
    simp only [renameCF, Option.bind_eq_bind, Option.bind_eq_some, bind] at h
    obtain ⟨⟨l1, c1⟩, hl, ⟨⟨r1, c2⟩, hr, h⟩⟩ := h
    simp only [Option.some_inj, Prod.mk.injEq] at h
    obtain ⟨rfl, rfl⟩ := h
    obtain ⟨m1, s1⟩ := ihl m c l1 c1 hl
    obtain ⟨m2, s2⟩ := ihr m c1 r1 c2 hr
    exact ⟨le_trans m1 m2, by
      simpa [letBinders] using binderSpec_append s1 s2 m1 m2⟩
  | andE l r ihl ihr =>
    intro m c e' c' h
    simp only [renameCF, Option.bind_eq_bind, Option.bind_eq_some, bind] at h
    obtain ⟨⟨l1, c1⟩, hl, ⟨⟨r1, c2⟩, hr, h⟩⟩ := h
    simp only [Option.some_inj, Prod.mk.injEq] at h
    obtain ⟨rfl, rfl⟩ := h
    obtain ⟨m1, s1⟩ := ihl m c l1 c1 hl
    obtain ⟨m2, s2⟩ := ihr m c1 r1 c2 hr
    exact ⟨le_trans m1 m2, by
      simpa [letBinders] using binderSpec_append s1 s2 m1 m2⟩
  | orE l r ihl ihr =>
    intro m c e' c' h
    simp only [renameCF, Option.bind_eq_bind, Option.bind_eq_some, bind] at h
    obtain ⟨⟨l1, c1⟩, hl, ⟨⟨r1, c2⟩, hr, h⟩⟩ := h
    simp only [Option.some_inj, Prod.mk.injEq] at h
    obtain ⟨rfl, rfl⟩ := h
    obtain ⟨m1, s1⟩ := ihl m c l1 c1 hl
    obtain ⟨m2, s2⟩ := ihr m c1 r1 c2 hr
    exact ⟨le_trans m1 m2, by
      simpa [letBinders] using binderSpec_append s1 s2 m1 m2⟩
  | add l r ihl ihr =>
    intro m c e' c' h
    simp only [renameCF, Option.bind_eq_bind, Option.bind_eq_some, bind] at h
    obtain ⟨⟨l1, c1⟩, hl, ⟨⟨r1, c2⟩, hr, h⟩⟩ := h
    simp only [Option.some_inj, Prod.mk.injEq] at h
    obtain ⟨rfl, rfl⟩ := h
    obtain ⟨m1, s1⟩ := ihl m c l1 c1 hl
    obtain ⟨m2, s2⟩ := ihr m c1 r1 c2 hr
    exact ⟨le_trans m1 m2, by
      simpa [letBinders] using binderSpec_append s1 s2 m1 m2⟩
  | sub l r ihl ihr =>
    intro m c e' c' h
    simp only [renameCF, Option.bind_eq_bind, Option.bind_eq_some, bind] at h
    obtain ⟨⟨l1, c1⟩, hl, ⟨⟨r1, c2⟩, hr, h⟩⟩ := h
    simp only [Option.some_inj, Prod.mk.injEq] at h
    obtain ⟨rfl, rfl⟩ := h
    obtain ⟨m1, s1⟩ := ihl m c l1 c1 hl
    obtain ⟨m2, s2⟩ := ihr m c1 r1 c2 hr
    exact ⟨le_trans m1 m2, by
      simpa [letBinders] using binderSpec_append s1 s2 m1 m2⟩
  | mul l r ihl ihr =>
    intro m c e' c' h
    simp only [renameCF, Option.bind_eq_bind, Option.bind_eq_some, bind] at h
    obtain ⟨⟨l1, c1⟩, hl, ⟨⟨r1, c2⟩, hr, h⟩⟩ := h
    simp only [Option.some_inj, Prod.mk.injEq] at h
    obtain ⟨rfl, rfl⟩ := h
    obtain ⟨m1, s1⟩ := ihl m c l1 c1 hl
    obtain ⟨m2, s2⟩ := ihr m c1 r1 c2 hr
    exact ⟨le_trans m1 m2, by
      simpa [letBinders] using binderSpec_append s1 s2 m1 m2⟩
  | div l r ihl ihr =>
    intro m c e' c' h
    simp only [renameCF, Option.bind_eq_bind, Option.bind_eq_some, bind] at h
    obtain ⟨⟨l1, c1⟩, hl, ⟨⟨r1, c2⟩, hr, h⟩⟩ := h
    simp only [Option.some_inj, Prod.mk.injEq] at h
    obtain ⟨rfl, rfl⟩ := h
    obtain ⟨m1, s1⟩ := ihl m c l1 c1 hl
    obtain ⟨m2, s2⟩ := ihr m c1 r1 c2 hr
    exact ⟨le_trans m1 m2, by
      simpa [letBinders] using binderSpec_append s1 s2 m1 m2⟩
  | mod l r ihl ihr =>
    intro m c e' c' h
    simp [renameCF] at h
  | leq l r ihl ihr =>
    intro m c e' c' h
    simp only [renameCF, Option.bind_eq_bind, Option.bind_eq_some, bind] at h
    obtain ⟨⟨l1, c1⟩, hl, ⟨⟨r1, c2⟩, hr, h⟩⟩ := h
    simp only [Option.some_inj, Prod.mk.injEq] at h
    obtain ⟨rfl, rfl⟩ := h
    obtain ⟨m1, s1⟩ := ihl m c l1 c1 hl
    obtain ⟨m2, s2⟩ := ihr m c1 r1 c2 hr
    exact ⟨le_trans m1 m2, by
      simpa [letBinders] using binderSpec_append s1 s2 m1 m2⟩
  | lth l r ihl ihr =>
    intro m c e' c' h
    simp only [renameCF, Option.bind_eq_bind, Option.bind_eq_some, bind] at h
    obtain ⟨⟨l1, c1⟩, hl, ⟨⟨r1, c2⟩, hr, h⟩⟩ := h
    simp only [Option.some_inj, Prod.mk.injEq] at h
    obtain ⟨rfl, rfl⟩ := h
    obtain ⟨m1, s1⟩ := ihl m c l1 c1 hl
    obtain ⟨m2, s2⟩ := ihr m c1 r1 c2 hr
    exact ⟨le_trans m1 m2, by
      simpa [letBinders] using binderSpec_append s1 s2 m1 m2⟩
  | neg e ih =>
    intro m c e' c' h
    simp only [renameCF, Option.bind_eq_bind, Option.bind_eq_some, bind] at h
    obtain ⟨⟨e1, c1⟩, he, h⟩ := h
    simp only [Option.some_inj, Prod.mk.injEq] at h
    obtain ⟨rfl, rfl⟩ := h
    obtain ⟨m1, s1⟩ := ih m c e1 c1 he
    exact ⟨m1, by simpa [letBinders] using s1⟩
  | notE e ih =>
    intro m c e' c' h
    simp only [renameCF, Option.bind_eq_bind, Option.bind_eq_some, bind] at h
    obtain ⟨⟨e1, c1⟩, he, h⟩ := h
    simp only [Option.some_inj, Prod.mk.injEq] at h
    obtain ⟨rfl, rfl⟩ := h
    obtain ⟨m1, s1⟩ := ih m c e1 c1 he
    exact ⟨m1, by simpa [letBinders] using s1⟩
  | letE x d b ihd ihb =>
    intro m c e' c' h
    simp only [renameCF, Option.bind_eq_bind, Option.bind_eq_some, bind] at h
    obtain ⟨⟨d1, c1⟩, hd, ⟨⟨b1, c2⟩, hb, h⟩⟩ := h
    simp only [Option.some_inj, Prod.mk.injEq] at h
    obtain ⟨rfl, rfl⟩ := h
    obtain ⟨m1, sd1, nd1⟩ := ihd m c d1 c1 hd
    obtain ⟨m2, sb1, nb1⟩ := ihb _ (c1 + 1) b1 c2 hb
    refine ⟨by omega, ?_, ?_⟩
    · intro bb hbb
      simp only [letBinders, List.mem_cons, List.mem_append] at hbb
      rcases hbb with rfl | hbb | hbb
      · exact ⟨x, c1, rfl, by omega, by omega⟩
      · obtain ⟨y, k, rfl, hk1, hk2⟩ := sd1 bb hbb
        exact ⟨y, k, rfl, by omega, by omega⟩
      · obtain ⟨y, k, rfl, hk1, hk2⟩ := sb1 bb hbb
        exact ⟨y, k, rfl, by omega, by omega⟩
    · simp only [letBinders]
      refine List.nodup_cons.mpr ⟨?_, ?_⟩
      · intro hmem
        rcases List.mem_append.mp hmem with hmem | hmem
        · obtain ⟨y, k, heq, hk1, hk2⟩ := sd1 _ hmem
          have := fresh_name_counter_inj x y c1 k heq
          omega
        · obtain ⟨y, k, heq, hk1, hk2⟩ := sb1 _ hmem
          have := fresh_name_counter_inj x y c1 k heq
          omega
      · exact List.Nodup.append nd1 nb1 (binderSpec_disjoint sd1 sb1 (by omega))
  | ifThenElse cond e0 e1 ihc ih0 ih1 =>
    intro m c e' c' h
    simp only [renameCF, Option.bind_eq_bind, Option.bind_eq_some, bind] at h
    obtain ⟨⟨cd, c1⟩, hc, ⟨⟨t1, c2⟩, ht, ⟨⟨t2, c3⟩, he, h⟩⟩⟩ := h
    simp only [Option.some_inj, Prod.mk.injEq] at h
    obtain ⟨rfl, rfl⟩ := h
    obtain ⟨m1, s1⟩ := ihc m c cd c1 hc
    obtain ⟨m2, s2⟩ := ih0 m c1 t1 c2 ht
    obtain ⟨m3, s3⟩ := ih1 m c2 t2 c3 he
    refine ⟨by omega, ?_⟩
    have h12 := binderSpec_append s1 s2 m1 m2
    have h123 := binderSpec_append h12 s3 (le_trans m1 m2) m3
    simpa [letBinders] using h123
  | fn formal body ih =>
    intro m c e' c' h
    simp [renameCF] at h
  | app g actual ihg iha =>
    intro m c e' c' h
    simp [renameCF] at h

theorem renameCF_renamedWith :
    ∀ (e : Expr) (m : String → Option String) (c : Nat) (e' : Expr) (c' : Nat),
      renameCF e m c = some (e', c') → RenamedWith m e e' := by
  intro e
  induction e with
  | var x =>
    intro m c e' c' h
    simp only [renameCF, Option.some_inj, Prod.mk.injEq] at h
    obtain ⟨rfl, rfl⟩ := h
    exact RenamedWith.var m x
  | bln b =>
    intro m c e' c' h
    simp only [renameCF, Option.some_inj, Prod.mk.injEq] at h
    obtain ⟨rfl, rfl⟩ := h
    exact RenamedWith.bln m b
  | num n =>
    intro m c e' c' h
    simp only [renameCF, Option.some_inj, Prod.mk.injEq] at h
    obtain ⟨rfl, rfl⟩ := h
    exact RenamedWith.num m n
  | eql l r ihl ihr =>
    intro m c e' c' h
    simp only [renameCF, Option.bind_eq_bind, Option.bind_eq_some, bind] at h
    obtain ⟨⟨l1, c1⟩, hl, ⟨⟨r1, c2⟩, hr, h⟩⟩ := h
    simp only [Option.some_inj, Prod.mk.injEq] at h
    obtain ⟨rfl, rfl⟩ := h
    exact RenamedWith.eql (ihl m c l1 c1 hl) (ihr m c1 r1 c2 hr)
  | andE l r ihl ihr =>
    intro m c e' c' h
    simp only [renameCF, Option.bind_eq_bind, Option.bind_eq_some, bind] at h
    obtain ⟨⟨l1, c1⟩, hl, ⟨⟨r1, c2⟩, hr, h⟩⟩ := h
    simp only [Option.some_inj, Prod.mk.injEq] at h
    obtain ⟨rfl, rfl⟩ := h
    exact RenamedWith.andE (ihl m c l1 c1 hl) (ihr m c1 r1 c2 hr)
  | orE l r ihl ihr =>
    intro m c e' c' h
    simp only [renameCF, Option.bind_eq_bind, Option.bind_eq_some, bind] at h
    obtain ⟨⟨l1, c1⟩, hl, ⟨⟨r1, c2⟩, hr, h⟩⟩ := h
    simp only [Option.some_inj, Prod.mk.injEq] at h
    obtain ⟨rfl, rfl⟩ := h
    exact RenamedWith.orE (ihl m c l1 c1 hl) (ihr m c1 r1 c2 hr)
  | add l r ihl ihr =>
    intro m c e' c' h
    simp only [renameCF, Option.bind_eq_bind, Option.bind_eq_some, bind] at h
    obtain ⟨⟨l1, c1⟩, hl, ⟨⟨r1, c2⟩, hr, h⟩⟩ := h
    simp only [Option.some_inj, Prod.mk.injEq] at h
    obtain ⟨rfl, rfl⟩ := h
    exact RenamedWith.add (ihl m c l1 c1 hl) (ihr m c1 r1 c2 hr)
  | sub l r ihl ihr =>
    intro m c e' c' h
    simp only [renameCF, Option.bind_eq_bind, Option.bind_eq_some, bind] at h
    obtain ⟨⟨l1, c1⟩, hl, ⟨⟨r1, c2⟩, hr, h⟩⟩ := h
    simp only [Option.some_inj, Prod.mk.injEq] at h
    obtain ⟨rfl, rfl⟩ := h
    exact RenamedWith.sub (ihl m c l1 c1 hl) (ihr m c1 r1 c2 hr)
  | mul l r ihl ihr =>
    intro m c e' c' h
    simp only [renameCF, Option.bind_eq_bind, Option.bind_eq_some, bind] at h
    obtain ⟨⟨l1, c1⟩, hl, ⟨⟨r1, c2⟩, hr, h⟩⟩ := h
    simp only [Option.some_inj, Prod.mk.injEq] at h
    obtain ⟨rfl, rfl⟩ := h
    exact RenamedWith.mul (ihl m c l1 c1 hl) (ihr m c1 r1 c2 hr)
  | div l r ihl ihr =>
    intro m c e' c' h
    simp only [renameCF, Option.bind_eq_bind, Option.bind_eq_some, bind] at h
    obtain ⟨⟨l1, c1⟩, hl, ⟨⟨r1, c2⟩, hr, h⟩⟩ := h
    simp only [Option.some_inj, Prod.mk.injEq] at h
    obtain ⟨rfl, rfl⟩ := h
    exact RenamedWith.div (ihl m c l1 c1 hl) (ihr m c1 r1 c2 hr)
  | mod l r ihl ihr =>
    intro m c e' c' h
    simp [renameCF] at h
  | leq l r ihl ihr =>
    intro m c e' c' h
    simp only [renameCF, Option.bind_eq_bind, Option.bind_eq_some, bind] at h
    obtain ⟨⟨l1, c1⟩, hl, ⟨⟨r1, c2⟩, hr, h⟩⟩ := h
    simp only [Option.some_inj, Prod.mk.injEq] at h
    obtain ⟨rfl, rfl⟩ := h
    exact RenamedWith.leq (ihl m c l1 c1 hl) (ihr m c1 r1 c2 hr)
  | lth l r ihl ihr =>
    intro m c e' c' h
    simp only [renameCF, Option.bind_eq_bind, Option.bind_eq_some, bind] at h
    obtain ⟨⟨l1, c1⟩, hl, ⟨⟨r1, c2⟩, hr, h⟩⟩ := h
    simp only [Option.some_inj, Prod.mk.injEq] at h
    obtain ⟨rfl, rfl⟩ := h
    exact RenamedWith.lth (ihl m c l1 c1 hl) (ihr m c1 r1 c2 hr)
  | neg e ih =>
    intro m c e' c' h
    simp only [renameCF, Option.bind_eq_bind, Option.bind_eq_some, bind] at h
    obtain ⟨⟨e1, c1⟩, he, h⟩ := h
    simp only [Option.some_inj, Prod.mk.injEq] at h
    obtain ⟨rfl, rfl⟩ := h
    exact RenamedWith.neg (ih m c e1 c1 he)
  | notE e ih =>
    intro m c e' c' h
    simp only [renameCF, Option.bind_eq_bind, Option.bind_eq_some, bind] at h
    obtain ⟨⟨e1, c1⟩, he, h⟩ := h
    simp only [Option.some_inj, Prod.mk.injEq] at h
    obtain ⟨rfl, rfl⟩ := h
    exact RenamedWith.notE (ih m c e1 c1 he)
  | letE x d b ihd ihb =>
    intro m c e' c' h
    simp only [renameCF, Option.bind_eq_bind, Option.bind_eq_some, bind] at h
    obtain ⟨⟨d1, c1⟩, hd, ⟨⟨b1, c2⟩, hb, h⟩⟩ := h
    simp only [Option.some_inj, Prod.mk.injEq] at h
    obtain ⟨rfl, rfl⟩ := h
    exact RenamedWith.letE (x ++ "_" ++ Nat.repr c1) (ihd m c d1 c1 hd)
      (ihb _ (c1 + 1) b1 c2 hb)
  | ifThenElse cond e0 e1 ihc ih0 ih1 =>
    intro m c e' c' h
    simp only [renameCF, Option.bind_eq_bind, Option.bind_eq_some, bind] at h
    obtain ⟨⟨cd, c1⟩, hc, ⟨⟨t1, c2⟩, ht, ⟨⟨t2, c3⟩, he, h⟩⟩⟩ := h
    simp only [Option.some_inj, Prod.mk.injEq] at h
    obtain ⟨rfl, rfl⟩ := h
    exact RenamedWith.ifThenElse (ihc m c cd c1 hc) (ih0 m c1 t1 c2 ht) (ih1 m c2 t2 c3 he)
  | fn formal body ih =>
    intro m c e' c' h
    simp [renameCF] at h
  | app g actual ihg iha =>
    intro m c e' c' h
    simp [renameCF] at h

/-- C5: running the control-flow renamer from the empty environment, the
binder names of all Let sites in the output are pairwise distinct (each is
the original name, an underscore and a distinct counter value, and decimal
numerals contain no underscore, so the names cannot collide), and the
output is related to the input by `RenamedWith`: every bound
Variable-Reference carries the name recorded for it by its lexically
nearest enclosing binding (the innermost Let override of the environment),
unmapped references are unchanged, and a Let's definition sub-expression is
renamed in the enclosing environment while only the body sees the new
binding. -/
theorem renamer_unique_binders_and_scoping (e e' : Expr) (c' : Nat)
    (h : renameCF e (fun _ => none) 0 = some (e', c')) :
    (letBinders e').Nodup ∧ RenamedWith (fun _ => none) e e' :=
  ⟨(renameCF_binderSpec e (fun _ => none) 0 e' c' h).2.2,
   renameCF_renamedWith e (fun _ => none) 0 e' c' h⟩

/-- Witness for C5 on the nested shadowing program
`let x <- (let x <- 2 in x + 3) in x * 10`. -/
theorem renamer_unique_binders_and_scoping_witness :
    (letBinders (.letE "x_1" (.letE "x_0" (.num 2)
        (.add (.var "x_0") (.num 3)))
      (.mul (.var "x_1") (.num 10)))).Nodup
    ∧ RenamedWith (fun _ => none)
        (.letE "x" (.letE "x" (.num 2) (.add (.var "x") (.num 3)))
          (.mul (.var "x") (.num 10)))
        (.letE "x_1" (.letE "x_0" (.num 2) (.add (.var "x_0") (.num 3)))
          (.mul (.var "x_1") (.num 10))) :=
  renamer_unique_binders_and_scoping
    (.letE "x" (.letE "x" (.num 2) (.add (.var "x") (.num 3)))
      (.mul (.var "x") (.num 10)))
    (.letE "x_1" (.letE "x_0" (.num 2) (.add (.var "x_0") (.num 3)))
      (.mul (.var "x_1") (.num 10))) 2 rfl

theorem ensure_lookup_other (st : RAState) (rd v : String) (hv : v ≠ rd) :
    (ensureMemory st rd).varToMem v = st.varToMem v := by
  unfold ensureMemory
  split
  · rfl
  · simp [hv]

theorem ensure_counter_ge (st : RAState) (rd : String) :
    st.counter ≤ (ensureMemory st rd).counter := by
  unfold ensureMemory
  split
  · exact le_rfl
  · simp

theorem ensure_keeps (st : RAState) (rd v : String) (s : Nat)
    (h : st.varToMem v = some s) : (ensureMemory st rd).varToMem v = some s := by
  by_cases hv : v = rd
  · subst hv
    unfold ensureMemory
    split
    · exact h
    · simp_all
  · rw [ensure_lookup_other st rd v hv]; exact h

theorem ensure_cases (st : RAState) (rd : String) :
    (ensureMemory st rd = st ∧ (rd ∈ defaultRegs ∨ (st.varToMem rd).isSome)) ∨
    (rd ∉ defaultRegs ∧ st.varToMem rd = none ∧
      (ensureMemory st rd).counter = st.counter + 1 ∧
      (ensureMemory st rd).varToMem rd = some (st.counter + 1)) := by
  by_cases h : rd ∈ defaultRegs ∨ (st.varToMem rd).isSome
  · left
    exact ⟨by simp [ensureMemory, h], h⟩
  · right
    have h1 : rd ∉ defaultRegs := fun hm => h (Or.inl hm)
    have h2 : st.varToMem rd = none := by
      cases hm : st.varToMem rd with
      | none => rfl
      | some s => exact absurd (Or.inr (by simp [hm])) h
    refine ⟨h1, h2, ?_, ?_⟩
    · simp [ensureMemory, h]
    · simp [ensureMemory, h]

theorem runS_append (a b : List Instr) (s : Store) :
    runS (a ++ b) s = (runS a s).bind (runS b) := by
  induction a generalizing s with
  | nil => simp [runS]
  | cons i t ih =>
    simp only [List.cons_append, runS]
    cases execS i s with
    | none => simp
    | some s1 => simp [ih]

theorem raLoad_sim (st : RAState) (envS : Env) (memA : Int → Int)
    (hVC : ∀ v z, v ∉ defaultRegs → envS v = some z →
      ∃ s, st.varToMem v = some s ∧ memA (s : Int) = z)
    (rs reg : String) (x : Int) (hreg : reg = "a0" ∨ reg = "a1")
    (hx : getVal envS rs = some x) :
    ∃ r code, raLoad st rs reg = some (r, code) ∧ (r ∈ defaultRegs ∨ r = reg) ∧
      ∀ (envA0 : Env), (∀ v ∈ defaultRegs, getVal envS v = getVal envA0 v) →
        ∃ envA1, runS code ⟨envA0, memA⟩ = some ⟨envA1, memA⟩ ∧
          getVal envA1 r = some x ∧
          (∀ w, w ≠ reg → envA1 w = envA0 w) := by
  by_cases hd : rs ∈ defaultRegs
  · refine ⟨rs, [], by simp [raLoad, hd], Or.inl hd, ?_⟩
    intro envA0 hagree
    exact ⟨envA0, by simp [runS], by rw [← hagree rs hd]; exact hx, fun w _ => rfl⟩
  · have hrs0 : rs ≠ "x0" := by intro h; exact hd (by simp [defaultRegs, h])
    have henvS : envS rs = some x := by
      rw [getVal, if_neg hrs0] at hx; exact hx
    obtain ⟨s, hs, hmem⟩ := hVC rs x hd henvS
    refine ⟨reg, [.lw "x0" (s : Int) reg], by simp [raLoad, hd, hs], Or.inr rfl, ?_⟩
    intro envA0 hagree
    refine ⟨setVal envA0 reg (memA ((0 : Int) + (s : Int))), ?_, ?_, ?_⟩
    · simp [runS, execS, getVal_x0]
    · have hregx0 : reg ≠ "x0" := by rcases hreg with rfl | rfl <;> decide
      rw [getVal_setVal_same _ _ _ hregx0]
      simp [hmem]
    · intro w hw
      have hregx0 : reg ≠ "x0" := by rcases hreg with rfl | rfl <;> decide
      simp [setVal, hregx0, Env.set, hw]

theorem setVal_app_other (e : Env) (r u : String) (v : Int) (hu : u ≠ r) :
    (setVal e r v) u = e u := by
  unfold setVal Env.set
  split
  · rfl
  · simp [hu]

theorem getVal_setVal_self (e : Env) (r : String) (v : Int) :
    getVal (setVal e r v) r = if r = "x0" then some 0 else some v := by
  by_cases h : r = "x0"
  · subst h; simp [getVal]
  · simp [h, getVal_setVal_same e r v h]

theorem getVal_untouched (e1 e0 : Env) (reg u : String)
    (h : ∀ w, w ≠ reg → e1 w = e0 w) (hu : u ≠ reg) :
    getVal e1 u = getVal e0 u := by
  unfold getVal
  split
  · rfl
  · exact h u hu

theorem setVal_app_self (e : Env) (r : String) (v : Int) (hr : r ≠ "x0") :
    (setVal e r v) r = some v := by
  simp [setVal, hr, Env.set]

theorem default_ne_scratch : ∀ u ∈ defaultRegs, u ≠ "a0" ∧ u ≠ "a1" := by
  intro u hu
  simp [defaultRegs] at hu
  rcases hu with rfl | rfl | rfl <;> exact ⟨by decide, by decide⟩

theorem ensure_bound (st : RAState) (rd : String)
    (hB : ∀ v s, st.varToMem v = some s → s ≤ st.counter) :
    ∀ v s, (ensureMemory st rd).varToMem v = some s →
      s ≤ (ensureMemory st rd).counter := by
  intro v s h
  rcases ensure_cases st rd with ⟨heq, _⟩ | ⟨h1, h2, h3, h4⟩
  · rw [heq] at h ⊢
    exact hB v s h
  · rw [h3]
    by_cases hv : v = rd
    · subst hv
      rw [h4] at h
      have hs := Option.some.inj h
      omega
    · rw [ensure_lookup_other st rd v hv] at h
      have := hB v s h
      omega

theorem ensure_inj (st : RAState) (rd : String)
    (hB : ∀ v s, st.varToMem v = some s → s ≤ st.counter)
    (hI : ∀ v w s, st.varToMem v = some s → st.varToMem w = some s → v = w) :
    ∀ v w s, (ensureMemory st rd).varToMem v = some s →
      (ensureMemory st rd).varToMem w = some s → v = w := by
  intro v w s hv hw
  rcases ensure_cases st rd with ⟨heq, _⟩ | ⟨h1, h2, h3, h4⟩
  · rw [heq] at hv hw
    exact hI v w s hv hw
  · by_cases hvr : v = rd <;> by_cases hwr : w = rd
    · rw [hvr, hwr]
    · rw [hvr, h4] at hv
      have hs := Option.some.inj hv
      rw [ensure_lookup_other st rd w hwr] at hw
      have := hB w s hw
      omega
    · rw [hwr, h4] at hw
      have hs := Option.some.inj hw
      rw [ensure_lookup_other st rd v hvr] at hv
      have := hB v s hv
      omega
    · rw [ensure_lookup_other st rd v hvr] at hv
      rw [ensure_lookup_other st rd w hwr] at hw
      exact hI v w s hv hw

theorem handleBinStandard_sim (st : RAState) (envS : Env) (memS : Int → Int)
    (envA : Env) (memA : Int → Int)
    (hInv : Inv st envS envA memA)
    (mk : String → String → String → Instr) (f : Int → Int → Option Int)
    (hexec : ∀ d a b (t : Store), execS (mk d a b) t =
      (getVal t.env a).bind fun x => (getVal t.env b).bind fun y =>
        (f x y).map fun v => (⟨setVal t.env d v, t.mem⟩ : Store))
    (rd rs1 rs2 : String) (envS' : Env) (memS' : Int → Int)
    (hS : execS (mk rd rs1 rs2) ⟨envS, memS⟩ = some ⟨envS', memS'⟩) :
    ∃ code envA' memA',
      handleBinStandard st mk rd rs1 rs2 = some (code, ensureMemory st rd) ∧
      runS code ⟨envA, memA⟩ = some ⟨envA', memA'⟩ ∧
      Inv (ensureMemory st rd) envS' envA' memA' ∧ memS' = memS := by
  obtain ⟨hRegs, hDef, hVars, hBound, hInj, hCover⟩ := hInv
  rw [hexec] at hS
  simp only [Option.bind_eq_bind, Option.bind_eq_some, Option.map_eq_some'] at hS
  obtain ⟨x, hx, y, hy, v, hv, hS⟩ := hS
  cases hS
  have hVC : ∀ u z, u ∉ defaultRegs → envS u = some z →
      ∃ s, (ensureMemory st rd).varToMem u = some s ∧ memA (s : Int) = z := by
    intro u z hu hz
    have hc := hCover u hu (by simp [hz])
    obtain ⟨s, hs⟩ := Option.isSome_iff_exists.mp hc
    obtain ⟨z', hz', hm⟩ := hVars u s hs
    rw [hz] at hz'
    obtain rfl : z = z' := Option.some.inj hz'
    exact ⟨s, ensure_keeps st rd u s hs, hm⟩
  obtain ⟨r1, l1, hload1, hr1cls, hrun1⟩ :=
    raLoad_sim (ensureMemory st rd) envS memA hVC rs1 "a0" x (Or.inl rfl) hx
  obtain ⟨r2, l2, hload2, hr2cls, hrun2⟩ :=
    raLoad_sim (ensureMemory st rd) envS memA hVC rs2 "a1" y (Or.inr rfl) hy
  obtain ⟨envA1, hrunA1, hv1, hd1⟩ := hrun1 envA hRegs
  have hagree1 : ∀ u ∈ defaultRegs, getVal envS u = getVal envA1 u := by
    intro u hu
    rw [hRegs u hu]
    exact (getVal_untouched envA1 envA "a0" u hd1 (default_ne_scratch u hu).1).symm
  obtain ⟨envA2, hrunA2, hv2, hd2⟩ := hrun2 envA1 hagree1
  have hr1a1 : r1 ≠ "a1" := by
    rcases hr1cls with h | h
    · exact (default_ne_scratch r1 h).2
    · rw [h]; decide
  have hv1' : getVal envA2 r1 = some x := by
    rw [getVal_untouched envA2 envA1 "a1" r1 hd2 hr1a1]
    exact hv1
  have hA2 : ∀ u, u ≠ "a0" → u ≠ "a1" → getVal envA2 u = getVal envA u := by
    intro u h0 h1
    rw [getVal_untouched envA2 envA1 "a1" u hd2 h1]
    exact getVal_untouched envA1 envA "a0" u hd1 h0
  by_cases hrd : rd ∈ defaultRegs
  · -- destination is a default register: no store code, state unchanged
    have hens : ensureMemory st rd = st := by simp [ensureMemory, hrd]
    have hmkA : execS (mk rd r1 r2) ⟨envA2, memA⟩ =
        some ⟨setVal envA2 rd v, memA⟩ := by
      rw [hexec]
      simp [hv1', hv2, hv]
    refine ⟨l1 ++ l2 ++ [mk rd r1 r2], setVal envA2 rd v, memA, ?_, ?_, ?_, rfl⟩
    · simp [handleBinStandard, hrd, hload1, hload2, raStore]
    · rw [runS_append, runS_append, hrunA1]
      simp only [Option.some_bind]
      rw [hrunA2]
      simp only [Option.some_bind]
      simp [runS, hmkA]
    · rw [hens]
      refine ⟨?_, hDef, ?_, hBound, hInj, ?_⟩
      · intro u hu
        by_cases hur : u = rd
        · rw [hur]
          simp [getVal_setVal_self]
        · rw [getVal_setVal_other envS rd u v hur,
            getVal_setVal_other envA2 rd u v hur, hRegs u hu]
          exact (hA2 u (default_ne_scratch u hu).1 (default_ne_scratch u hu).2).symm
      · intro u s hs
        have hund : u ∉ defaultRegs := by
          intro hu
          rw [hDef u hu] at hs
          cases hs
        have hune : u ≠ rd := fun h => hund (h ▸ hrd)
        obtain ⟨z, hz, hm⟩ := hVars u s hs
        refine ⟨z, ?_, hm⟩
        rw [setVal_app_other envS rd u v hune]
        exact hz
      · intro u hu hsome
        have hune : u ≠ rd := fun h => hu (h ▸ hrd)
        rw [setVal_app_other envS rd u v hune] at hsome
        exact hCover u hu hsome
  · -- destination is spilled: result goes through a0 and its memory slot
    have hrdx0 : rd ≠ "x0" := fun h => hrd (by rw [h]; decide)
    obtain ⟨srd, hsrd⟩ : ∃ s, (ensureMemory st rd).varToMem rd = some s := by
      rcases ensure_cases st rd with ⟨heq, hor⟩ | ⟨h1, h2, h3, h4⟩
      · rcases hor with h | h
        · exact absurd h hrd
        · obtain ⟨s, hs⟩ := Option.isSome_iff_exists.mp h
          exact ⟨s, by rw [heq]; exact hs⟩
      · exact ⟨st.counter + 1, h4⟩
    have hmkA : execS (mk "a0" r1 r2) ⟨envA2, memA⟩ =
        some ⟨setVal envA2 "a0" v, memA⟩ := by
      rw [hexec]
      simp [hv1', hv2, hv]
    have hswA : execS (.sw "x0" (srd : Int) "a0") ⟨setVal envA2 "a0" v, memA⟩ =
        some ⟨setVal envA2 "a0" v, memSet memA (0 + (srd : Int)) v⟩ := by
      simp [execS, getVal_x0, getVal_setVal_same]
    have hDef1 : ∀ u ∈ defaultRegs, (ensureMemory st rd).varToMem u = none := by
      intro u hu
      have hune : u ≠ rd := fun h => hrd (h ▸ hu)
      rw [ensure_lookup_other st rd u hune]
      exact hDef u hu
    have hBound1 := ensure_bound st rd hBound
    have hInj1 := ensure_inj st rd hBound hInj
    refine ⟨l1 ++ l2 ++ [mk "a0" r1 r2] ++ [.sw "x0" (srd : Int) "a0"],
      setVal envA2 "a0" v, memSet memA (0 + (srd : Int)) v, ?_, ?_, ?_, rfl⟩
    · simp [handleBinStandard, hrd, hload1, hload2, raStore, hsrd]
    · rw [runS_append, runS_append, runS_append, hrunA1]
      simp only [Option.some_bind]
      rw [hrunA2]
      simp only [Option.some_bind]
      simp [runS, hmkA, hswA]
    · refine ⟨?_, hDef1, ?_, hBound1, hInj1, ?_⟩
      · intro u hu
        have hune : u ≠ rd := fun h => hrd (h ▸ hu)
        obtain ⟨h0, h1⟩ := default_ne_scratch u hu
        rw [getVal_setVal_other envS rd u v hune,
          getVal_setVal_other envA2 "a0" u v h0, hRegs u hu]
        exact (hA2 u h0 h1).symm
      · intro u s hs
        by_cases hur : u = rd
        · rw [hur] at hs ⊢
          rw [hsrd] at hs
          obtain rfl : srd = s := Option.some.inj hs
          refine ⟨v, setVal_app_self envS rd v hrdx0, ?_⟩
          simp [memSet]
        · have hs1 := hs
          rw [ensure_lookup_other st rd u hur] at hs
          obtain ⟨z, hz, hm⟩ := hVars u s hs
          have hsne : s ≠ srd := by
            intro h
            exact hur (hInj1 u rd s hs1 (by rw [h]; exact hsrd))
          refine ⟨z, ?_, ?_⟩
          · rw [setVal_app_other envS rd u v hur]
            exact hz
          · rw [memSet]
            rw [if_neg ?_]
            · exact hm
            · intro h
              apply hsne
              omega
      · intro u hu hsome
        by_cases hur : u = rd
        · rw [hur, hsrd]
          rfl
        · rw [setVal_app_other envS rd u v hur] at hsome
          obtain ⟨s, hs⟩ := Option.isSome_iff_exists.mp (hCover u hu hsome)
          rw [ensure_keeps st rd u s hs]
          rfl

theorem handleBinImmediate_sim (st : RAState) (envS : Env) (memS : Int → Int)
    (envA : Env) (memA : Int → Int)
    (hInv : Inv st envS envA memA)
    (mk : String → String → Int → Instr) (f : Int → Int → Int)
    (hexec : ∀ d a imm (t : Store), execS (mk d a imm) t =
      (getVal t.env a).map fun x => (⟨setVal t.env d (f x imm), t.mem⟩ : Store))
    (rd rs1 : String) (imm : Int) (envS' : Env) (memS' : Int → Int)
    (hS : execS (mk rd rs1 imm) ⟨envS, memS⟩ = some ⟨envS', memS'⟩) :
    ∃ code envA' memA',
      handleBinImmediate st mk rd rs1 imm = some (code, ensureMemory st rd) ∧
      runS code ⟨envA, memA⟩ = some ⟨envA', memA'⟩ ∧
      Inv (ensureMemory st rd) envS' envA' memA' ∧ memS' = memS := by
  obtain ⟨hRegs, hDef, hVars, hBound, hInj, hCover⟩ := hInv
  rw [hexec] at hS
  simp only [Option.map_eq_some'] at hS
  obtain ⟨x, hx, hS⟩ := hS
  cases hS
  have hVC : ∀ u z, u ∉ defaultRegs → envS u = some z →
      ∃ s, (ensureMemory st rd).varToMem u = some s ∧ memA (s : Int) = z := by
    intro u z hu hz
    have hc := hCover u hu (by simp [hz])
    obtain ⟨s, hs⟩ := Option.isSome_iff_exists.mp hc
    obtain ⟨z', hz', hm⟩ := hVars u s hs
    rw [hz] at hz'
    obtain rfl : z = z' := Option.some.inj hz'
    exact ⟨s, ensure_keeps st rd u s hs, hm⟩
  obtain ⟨r1, l1, hload1, hr1cls, hrun1⟩ :=
    raLoad_sim (ensureMemory st rd) envS memA hVC rs1 "a0" x (Or.inl rfl) hx
  obtain ⟨envA1, hrunA1, hv1, hd1⟩ := hrun1 envA hRegs
  have hA1 : ∀ u, u ≠ "a0" → getVal envA1 u = getVal envA u := by
    intro u h0
    exact getVal_untouched envA1 envA "a0" u hd1 h0
  by_cases hrd : rd ∈ defaultRegs
  · have hens : ensureMemory st rd = st := by simp [ensureMemory, hrd]
    have hmkA : execS (mk rd r1 imm) ⟨envA1, memA⟩ =
        some ⟨setVal envA1 rd (f x imm), memA⟩ := by
      rw [hexec]
      simp [hv1]
    refine ⟨l1 ++ [mk rd r1 imm], setVal envA1 rd (f x imm), memA, ?_, ?_, ?_, rfl⟩
    · simp [handleBinImmediate, hrd, hload1, raStore]
    · rw [runS_append, hrunA1]
      simp only [Option.some_bind]
      simp [runS, hmkA]
    · rw [hens]
      refine ⟨?_, hDef, ?_, hBound, hInj, ?_⟩
      · intro u hu
        by_cases hur : u = rd
        · rw [hur]
          simp [getVal_setVal_self]
        · rw [getVal_setVal_other envS rd u (f x imm) hur,
            getVal_setVal_other envA1 rd u (f x imm) hur, hRegs u hu]
          exact (hA1 u (default_ne_scratch u hu).1).symm
      · intro u s hs
        have hund : u ∉ defaultRegs := by
          intro hu
          rw [hDef u hu] at hs
          cases hs
        have hune : u ≠ rd := fun h => hund (h ▸ hrd)
        obtain ⟨z, hz, hm⟩ := hVars u s hs
        refine ⟨z, ?_, hm⟩
        rw [setVal_app_other envS rd u (f x imm) hune]
        exact hz
      · intro u hu hsome
        have hune : u ≠ rd := fun h => hu (h ▸ hrd)
        rw [setVal_app_other envS rd u (f x imm) hune] at hsome
        exact hCover u hu hsome
  · have hrdx0 : rd ≠ "x0" := fun h => hrd (by rw [h]; decide)
    obtain ⟨srd, hsrd⟩ : ∃ s, (ensureMemory st rd).varToMem rd = some s := by
      rcases ensure_cases st rd with ⟨heq, hor⟩ | ⟨h1, h2, h3, h4⟩
      · rcases hor with h | h
        · exact absurd h hrd
        · obtain ⟨s, hs⟩ := Option.isSome_iff_exists.mp h
          exact ⟨s, by rw [heq]; exact hs⟩
      · exact ⟨st.counter + 1, h4⟩
    have hmkA : execS (mk "a0" r1 imm) ⟨envA1, memA⟩ =
        some ⟨setVal envA1 "a0" (f x imm), memA⟩ := by
      rw [hexec]
      simp [hv1]
    have hswA : execS (.sw "x0" (srd : Int) "a0") ⟨setVal envA1 "a0" (f x imm), memA⟩ =
        some ⟨setVal envA1 "a0" (f x imm), memSet memA (0 + (srd : Int)) (f x imm)⟩ := by
      simp [execS, getVal_x0, getVal_setVal_same]
    have hDef1 : ∀ u ∈ defaultRegs, (ensureMemory st rd).varToMem u = none := by
      intro u hu
      have hune : u ≠ rd := fun h => hrd (h ▸ hu)
      rw [ensure_lookup_other st rd u hune]
      exact hDef u hu
    have hBound1 := ensure_bound st rd hBound
    have hInj1 := ensure_inj st rd hBound hInj
    refine ⟨l1 ++ [mk "a0" r1 imm] ++ [.sw "x0" (srd : Int) "a0"],
      setVal envA1 "a0" (f x imm), memSet memA (0 + (srd : Int)) (f x imm), ?_, ?_, ?_, rfl⟩
    · simp [handleBinImmediate, hrd, hload1, raStore, hsrd]
    · rw [runS_append, runS_append, hrunA1]
      simp only [Option.some_bind]
      simp [runS, hmkA, hswA]
    · refine ⟨?_, hDef1, ?_, hBound1, hInj1, ?_⟩
      · intro u hu
        have hune : u ≠ rd := fun h => hrd (h ▸ hu)
        obtain ⟨h0, h1⟩ := default_ne_scratch u hu
        rw [getVal_setVal_other envS rd u (f x imm) hune,
          getVal_setVal_other envA1 "a0" u (f x imm) h0, hRegs u hu]
        exact (hA1 u h0).symm
      · intro u s hs
        by_cases hur : u = rd
        · rw [hur] at hs ⊢
          rw [hsrd] at hs
          obtain rfl : srd = s := Option.some.inj hs
          refine ⟨f x imm, setVal_app_self envS rd (f x imm) hrdx0, ?_⟩
          simp [memSet]
        · have hs1 := hs
          rw [ensure_lookup_other st rd u hur] at hs
          obtain ⟨z, hz, hm⟩ := hVars u s hs
          have hsne : s ≠ srd := by
            intro h
            exact hur (hInj1 u rd s hs1 (by rw [h]; exact hsrd))
          refine ⟨z, ?_, ?_⟩
          · rw [setVal_app_other envS rd u (f x imm) hur]
            exact hz
          · rw [memSet]
            rw [if_neg ?_]
            · exact hm
            · intro h
              apply hsne
              omega
      · intro u hu hsome
        by_cases hur : u = rd
        · rw [hur, hsrd]
          rfl
        · rw [setVal_app_other envS rd u (f x imm) hur] at hsome
          obtain ⟨s, hs⟩ := Option.isSome_iff_exists.mp (hCover u hu hsome)
          rw [ensure_keeps st rd u s hs]
          rfl

theorem raLoad_nonCtrl (st : RAState) (v reg r : String) (code : List Instr)
    (h : raLoad st v reg = some (r, code)) : ∀ j ∈ code, j.nonCtrl := by
  unfold raLoad at h
  split at h
  · simp only [Option.some_inj, Prod.mk.injEq] at h
    obtain ⟨rfl, rfl⟩ := h
    intro j hj
    simp at hj
  · cases hm : st.varToMem v with
    | none => rw [hm] at h; cases h
    | some s =>
      rw [hm] at h
      simp at h
      obtain ⟨rfl, rfl⟩ := h
      intro j hj
      simp at hj
      subst hj
      trivial

theorem raStore_nonCtrl (st : RAState) (v reg : String) (code : List Instr)
    (h : raStore st v reg = some code) : ∀ j ∈ code, j.nonCtrl := by
  unfold raStore at h
  split at h
  · simp only [Option.some_inj] at h
    subst h
    intro j hj
    simp at hj
  · cases hm : st.varToMem v with
    | none => rw [hm] at h; cases h
    | some s =>
      rw [hm] at h
      simp at h
      subst h
      intro j hj
      simp at hj
      subst hj
      trivial

theorem handleBinStandard_nonCtrl (st : RAState) (mk : String → String → String → Instr)
    (rd rs1 rs2 : String) (code : List Instr) (st' : RAState)
    (hnc : ∀ d a b, (mk d a b).nonCtrl)
    (h : handleBinStandard st mk rd rs1 rs2 = some (code, st')) :
    ∀ j ∈ code, j.nonCtrl := by
  simp only [handleBinStandard, Option.bind_eq_bind, Option.bind_eq_some, bind] at h
  obtain ⟨⟨r1, l1⟩, hload1, h⟩ := h
  obtain ⟨⟨r2, l2⟩, hload2, h⟩ := h
  obtain ⟨sc, hstore, h⟩ := h
  simp only [Option.some_inj, Prod.mk.injEq] at h
  obtain ⟨rfl, rfl⟩ := h
  intro j hj
  simp at hj
  rcases hj with hj | hj | rfl | hj
  · exact raLoad_nonCtrl _ _ _ _ _ hload1 j hj
  · exact raLoad_nonCtrl _ _ _ _ _ hload2 j hj
  · exact hnc _ r1 r2
  · exact raStore_nonCtrl _ _ _ _ hstore j hj

theorem handleBinImmediate_nonCtrl (st : RAState) (mk : String → String → Int → Instr)
    (rd rs1 : String) (imm : Int) (code : List Instr) (st' : RAState)
    (hnc : ∀ d a i, (mk d a i).nonCtrl)
    (h : handleBinImmediate st mk rd rs1 imm = some (code, st')) :
    ∀ j ∈ code, j.nonCtrl := by
  simp only [handleBinImmediate, Option.bind_eq_bind, Option.bind_eq_some, bind] at h
  obtain ⟨⟨r1, l1⟩, hload1, h⟩ := h
  obtain ⟨sc, hstore, h⟩ := h
  simp only [Option.some_inj, Prod.mk.injEq] at h
  obtain ⟨rfl, rfl⟩ := h
  intro j hj
  simp at hj
  rcases hj with hj | rfl | hj
  · exact raLoad_nonCtrl _ _ _ _ _ hload1 j hj
  · exact hnc _ r1 imm
  · exact raStore_nonCtrl _ _ _ _ hstore j hj

theorem SOp_nonCtrl (i : Instr) (h : SOp i) : i.nonCtrl := by
  cases i <;> first | trivial | exact h.elim

theorem allocOne_sim (pcSnap : Nat) (st : RAState) (envS : Env) (memS : Int → Int)
    (envA : Env) (memA : Int → Int) (hInv : Inv st envS envA memA)
    (i : Instr) (hop : SOp i) (envS' : Env) (memS' : Int → Int)
    (hS : execS i ⟨envS, memS⟩ = some ⟨envS', memS'⟩) :
    ∃ code st' envA' memA',
      allocOne pcSnap st i = some (code, st') ∧
      runS code ⟨envA, memA⟩ = some ⟨envA', memA'⟩ ∧
      Inv st' envS' envA' memA' ∧ memS' = memS ∧ ∀ j ∈ code, j.nonCtrl := by
  cases i with
  | addi rd rs1 imm =>
    obtain ⟨code, envA', memA', hh, hr, hi, hm⟩ :=
      handleBinImmediate_sim st envS memS envA memA hInv .addi (fun x imm => x + imm)
        (fun _ _ _ _ => rfl) rd rs1 imm envS' memS' hS
    exact ⟨code, ensureMemory st rd, envA', memA', hh, hr, hi, hm,
      handleBinImmediate_nonCtrl st .addi rd rs1 imm code _ (fun _ _ _ => trivial) hh⟩
  | xori rd rs1 imm =>
    obtain ⟨code, envA', memA', hh, hr, hi, hm⟩ :=
      handleBinImmediate_sim st envS memS envA memA hInv .xori (fun x imm => pyXor x imm)
        (fun _ _ _ _ => rfl) rd rs1 imm envS' memS' hS
    exact ⟨code, ensureMemory st rd, envA', memA', hh, hr, hi, hm,
      handleBinImmediate_nonCtrl st .xori rd rs1 imm code _ (fun _ _ _ => trivial) hh⟩
  | slti rd rs1 imm =>
    obtain ⟨code, envA', memA', hh, hr, hi, hm⟩ :=
      handleBinImmediate_sim st envS memS envA memA hInv .slti
        (fun x imm => if x < imm then 1 else 0)
        (fun _ _ _ _ => rfl) rd rs1 imm envS' memS' hS
    exact ⟨code, ensureMemory st rd, envA', memA', hh, hr, hi, hm,
      handleBinImmediate_nonCtrl st .slti rd rs1 imm code _ (fun _ _ _ => trivial) hh⟩
  | add rd rs1 rs2 =>
    obtain ⟨code, envA', memA', hh, hr, hi, hm⟩ :=
      handleBinStandard_sim st envS memS envA memA hInv .add (fun x y => some (x + y))
        (fun _ _ _ _ => rfl) rd rs1 rs2 envS' memS' hS
    exact ⟨code, ensureMemory st rd, envA', memA', hh, hr, hi, hm,
      handleBinStandard_nonCtrl st .add rd rs1 rs2 code _ (fun _ _ _ => trivial) hh⟩
  | sub rd rs1 rs2 =>
    obtain ⟨code, envA', memA', hh, hr, hi, hm⟩ :=
      handleBinStandard_sim st envS memS envA memA hInv .sub (fun x y => some (x - y))
        (fun _ _ _ _ => rfl) rd rs1 rs2 envS' memS' hS
    exact ⟨code, ensureMemory st rd, envA', memA', hh, hr, hi, hm,
      handleBinStandard_nonCtrl st .sub rd rs1 rs2 code _ (fun _ _ _ => trivial) hh⟩
  | mul rd rs1 rs2 =>
    obtain ⟨code, envA', memA', hh, hr, hi, hm⟩ :=
      handleBinStandard_sim st envS memS envA memA hInv .mul (fun x y => some (x * y))
        (fun _ _ _ _ => rfl) rd rs1 rs2 envS' memS' hS
    exact ⟨code, ensureMemory st rd, envA', memA', hh, hr, hi, hm,
      handleBinStandard_nonCtrl st .mul rd rs1 rs2 code _ (fun _ _ _ => trivial) hh⟩
  | div rd rs1 rs2 =>
    obtain ⟨code, envA', memA', hh, hr, hi, hm⟩ :=
      handleBinStandard_sim st envS memS envA memA hInv .div
        (fun x y => if y = 0 then none else some (Int.fdiv x y))
        (by
          intro d a b t
          cases ha : getVal t.env a <;> cases hb : getVal t.env b <;>
            simp [execS, ha, hb] <;> split <;> simp)
        rd rs1 rs2 envS' memS' hS
    exact ⟨code, ensureMemory st rd, envA', memA', hh, hr, hi, hm,
      handleBinStandard_nonCtrl st .div rd rs1 rs2 code _ (fun _ _ _ => trivial) hh⟩
  | slt rd rs1 rs2 =>
    obtain ⟨code, envA', memA', hh, hr, hi, hm⟩ :=
      handleBinStandard_sim st envS memS envA memA hInv .slt
        (fun x y => some (if x < y then 1 else 0))
        (fun _ _ _ _ => rfl) rd rs1 rs2 envS' memS' hS
    exact ⟨code, ensureMemory st rd, envA', memA', hh, hr, hi, hm,
      handleBinStandard_nonCtrl st .slt rd rs1 rs2 code _ (fun _ _ _ => trivial) hh⟩
  | xor rd rs1 rs2 => simp [SOp] at hop
  | lw a b c => simp [SOp] at hop
  | sw a b c => simp [SOp] at hop
  | beq a b c => simp [SOp] at hop
  | jal a b => simp [SOp] at hop
  | jalr a b c => simp [SOp] at hop

theorem allocList_sim (pcSnap : Nat) (l : List Instr) :
    ∀ (st : RAState) (envS : Env) (memS : Int → Int) (envA : Env) (memA : Int → Int),
      Inv st envS envA memA → (∀ i ∈ l, SOp i) →
      ∀ (t : Store), runS l ⟨envS, memS⟩ = some t →
      ∃ code st' envA' memA',
        allocList pcSnap st l = some (code, st') ∧
        runS code ⟨envA, memA⟩ = some ⟨envA', memA'⟩ ∧
        Inv st' t.env envA' memA' ∧ t.mem = memS ∧ ∀ j ∈ code, j.nonCtrl := by
  induction l with
  | nil =>
    intro st envS memS envA memA hInv hops t ht
    simp only [runS, Option.some_inj] at ht
    refine ⟨[], st, envA, memA, rfl, by simp [runS], ?_, ?_, by simp⟩
    · rw [← ht]
      exact hInv
    · rw [← ht]
  | cons i l ih =>
    intro st envS memS envA memA hInv hops t ht
    simp only [runS, Option.bind_eq_bind, Option.bind_eq_some] at ht
    obtain ⟨⟨envS1, memS1⟩, h1, h2⟩ := ht
    obtain ⟨code1, st1, envA1, memA1, ha1, hr1, hinv1, hm1, hnc1⟩ :=
      allocOne_sim pcSnap st envS memS envA memA hInv i (hops i (by simp)) envS1 memS1 h1
    rw [hm1] at h2
    obtain ⟨code2, st2, envA2, memA2, ha2, hr2, hinv2, hm2, hnc2⟩ :=
      ih st1 envS1 memS envA1 memA1 hinv1 (fun j hj => hops j (by simp [hj])) t h2
    refine ⟨code1 ++ code2, st2, envA2, memA2, ?_, ?_, hinv2, hm2, ?_⟩
    · simp [allocList, ha1, ha2]
    · rw [runS_append, hr1]
      simp only [Option.some_bind]
      exact hr2
    · intro j hj
      rcases List.mem_append.mp hj with h | h
      · exact hnc1 j h
      · exact hnc2 j h

theorem instStep_nonCtrl (P : List Instr) (s : MState) (i : Instr)
    (hi : P[s.pc]? = some i) (hnc : i.nonCtrl) :
    instStep P s =
      (execS i ⟨s.env, s.mem⟩).map fun t => (⟨t.env, t.mem, s.pc + 1⟩ : MState) := by
  cases i with
  | addi rd rs1 imm =>
    simp only [instStep, hi, execS]
    cases getVal s.env rs1 <;> simp
  | xori rd rs1 imm =>
    simp only [instStep, hi, execS]
    cases getVal s.env rs1 <;> simp
  | slti rd rs1 imm =>
    simp only [instStep, hi, execS]
    cases getVal s.env rs1 <;> simp
  | add rd rs1 rs2 =>
    simp only [instStep, hi, execS]
    cases getVal s.env rs1 <;> cases getVal s.env rs2 <;> simp
  | sub rd rs1 rs2 =>
    simp only [instStep, hi, execS]
    cases getVal s.env rs1 <;> cases getVal s.env rs2 <;> simp
  | mul rd rs1 rs2 =>
    simp only [instStep, hi, execS]
    cases getVal s.env rs1 <;> cases getVal s.env rs2 <;> simp
  | div rd rs1 rs2 =>
    simp only [instStep, hi, execS]
    cases getVal s.env rs1 <;> cases getVal s.env rs2 <;> simp <;> split <;> simp
  | xor rd rs1 rs2 =>
    simp only [instStep, hi, execS]
    cases getVal s.env rs1 <;> cases getVal s.env rs2 <;> simp
  | slt rd rs1 rs2 =>
    simp only [instStep, hi, execS]
    cases getVal s.env rs1 <;> cases getVal s.env rs2 <;> simp
  | lw rs1 offset reg =>
    simp only [instStep, hi, execS]
    cases getVal s.env rs1 <;> simp
  | sw rs1 offset reg =>
    simp only [instStep, hi, execS]
    cases getVal s.env rs1 <;> cases getVal s.env reg <;> simp
  | beq a b c => exact absurd hnc (by simp [Instr.nonCtrl])
  | jal a b => exact absurd hnc (by simp [Instr.nonCtrl])
  | jalr a b c => exact absurd hnc (by simp [Instr.nonCtrl])

theorem run_eq_runS (rest : List Instr) (P : List Instr) (k : Nat)
    (hrest : P.drop k = rest) (hall : ∀ i ∈ rest, i.nonCtrl)
    (env : Env) (mem : Int → Int) :
    run P rest.length ⟨env, mem, k⟩ =
      (runS rest ⟨env, mem⟩).map fun t => (⟨t.env, t.mem, k + rest.length⟩ : MState) := by
  induction rest generalizing k env mem with
  | nil =>
    have hk : P.length ≤ k := by
      by_contra h
      have : P.drop k ≠ [] := by
        apply List.ne_nil_of_length_pos
        rw [List.length_drop]
        omega
      exact this hrest
    simp [run, hk, runS]
  | cons i rest ih =>
    have hk : k < P.length := by
      by_contra h
      have : P.drop k = [] := List.drop_eq_nil_of_le (by omega)
      rw [this] at hrest
      cases hrest
    have hik : P[k]? = some i := by
      have h0 : (P.drop k)[0]? = some i := by rw [hrest]; simp
      rw [List.getElem?_drop] at h0
      simpa using h0
    have hrest' : P.drop (k + 1) = rest := by
      rw [← List.tail_drop, hrest]
      simp
    have hstep := instStep_nonCtrl P ⟨env, mem, k⟩ i hik (hall i (by simp))
    show run P (rest.length + 1) ⟨env, mem, k⟩ = _
    rw [run, if_neg (by omega : ¬ P.length ≤ k), hstep]
    cases hexec : execS i ⟨env, mem⟩ with
    | none => simp [runS, hexec]
    | some t1 =>
      simp only [Option.map_some', Option.some_bind]
      have harith : k + 1 + rest.length = k + (rest.length + 1) := by omega
      have := ih (k + 1) hrest' (fun j hj => hall j (by simp [hj])) t1.env t1.mem
      rw [harith] at this
      rw [this]
      simp [runS, hexec]

theorem genRA_SOp (e : Expr) : ∀ (c : Nat) (l : List Instr) (v : String) (c' : Nat),
    genRA e c = some (l, v, c') → ∀ i ∈ l, SOp i := by
  induction e with
  | var x =>
    intro c l v c' h i hi
    simp only [genRA, Option.some_inj, Prod.mk.injEq] at h
    obtain ⟨rfl, -, -⟩ := h
    simp at hi
  | bln b =>
    intro c l v c' h i hi
    simp only [genRA, Option.some_inj, Prod.mk.injEq] at h
    obtain ⟨rfl, -, -⟩ := h
    simp at hi
    subst hi
    trivial
  | num n =>
    intro c l v c' h i hi
    simp only [genRA, Option.some_inj, Prod.mk.injEq] at h
    obtain ⟨rfl, -, -⟩ := h
    simp at hi
    subst hi
    trivial
  | eql a b iha ihb =>
    intro c l v c' h i hi
    simp only [genRA, Option.bind_eq_bind, Option.bind_eq_some, bind] at h
    obtain ⟨⟨lc, lv, c1⟩, h1, h⟩ := h
    obtain ⟨⟨rc, rv, c2⟩, h2, h⟩ := h
    simp only [Option.some_inj, Prod.mk.injEq] at h
    obtain ⟨rfl, -, -⟩ := h
    simp only [List.append_assoc, List.mem_append] at hi
    rcases hi with hi | hi | hi
    · exact iha c lc lv c1 h1 i hi
    · exact ihb c1 rc rv c2 h2 i hi
    · fin_cases hi <;> trivial
  | add a b iha ihb =>
    intro c l v c' h i hi
    simp only [genRA, Option.bind_eq_bind, Option.bind_eq_some, bind] at h
    obtain ⟨⟨lc, lv, c1⟩, h1, h⟩ := h
    obtain ⟨⟨rc, rv, c2⟩, h2, h⟩ := h
    simp only [Option.some_inj, Prod.mk.injEq] at h
    obtain ⟨rfl, -, -⟩ := h
    simp only [List.append_assoc, List.mem_append] at hi
    rcases hi with hi | hi | hi
    · exact iha c lc lv c1 h1 i hi
    · exact ihb c1 rc rv c2 h2 i hi
    · fin_cases hi <;> trivial
  | sub a b iha ihb =>
    intro c l v c' h i hi
    simp only [genRA, Option.bind_eq_bind, Option.bind_eq_some, bind] at h
    obtain ⟨⟨lc, lv, c1⟩, h1, h⟩ := h
    obtain ⟨⟨rc, rv, c2⟩, h2, h⟩ := h
    simp only [Option.some_inj, Prod.mk.injEq] at h
    obtain ⟨rfl, -, -⟩ := h
    simp only [List.append_assoc, List.mem_append] at hi
    rcases hi with hi | hi | hi
    · exact iha c lc lv c1 h1 i hi
    · exact ihb c1 rc rv c2 h2 i hi
    · fin_cases hi <;> trivial
  | mul a b iha ihb =>
    intro c l v c' h i hi
    simp only [genRA, Option.bind_eq_bind, Option.bind_eq_some, bind] at h
    obtain ⟨⟨lc, lv, c1⟩, h1, h⟩ := h
    obtain ⟨⟨rc, rv, c2⟩, h2, h⟩ := h
    simp only [Option.some_inj, Prod.mk.injEq] at h
    obtain ⟨rfl, -, -⟩ := h
    simp only [List.append_assoc, List.mem_append] at hi
    rcases hi with hi | hi | hi
    · exact iha c lc lv c1 h1 i hi
    · exact ihb c1 rc rv c2 h2 i hi
    · fin_cases hi <;> trivial
  | div a b iha ihb =>
    intro c l v c' h i hi
    simp only [genRA, Option.bind_eq_bind, Option.bind_eq_some, bind] at h
    obtain ⟨⟨lc, lv, c1⟩, h1, h⟩ := h
    obtain ⟨⟨rc, rv, c2⟩, h2, h⟩ := h
    simp only [Option.some_inj, Prod.mk.injEq] at h
    obtain ⟨rfl, -, -⟩ := h
    simp only [List.append_assoc, List.mem_append] at hi
    rcases hi with hi | hi | hi
    · exact iha c lc lv c1 h1 i hi
    · exact ihb c1 rc rv c2 h2 i hi
    · fin_cases hi <;> trivial
  | leq a b iha ihb =>
    intro c l v c' h i hi
    simp only [genRA, Option.bind_eq_bind, Option.bind_eq_some, bind] at h
    obtain ⟨⟨lc, lv, c1⟩, h1, h⟩ := h
    obtain ⟨⟨rc, rv, c2⟩, h2, h⟩ := h
    simp only [Option.some_inj, Prod.mk.injEq] at h
    obtain ⟨rfl, -, -⟩ := h
    simp only [List.append_assoc, List.mem_append] at hi
    rcases hi with hi | hi | hi
    · exact iha c lc lv c1 h1 i hi
    · exact ihb c1 rc rv c2 h2 i hi
    · fin_cases hi <;> trivial
  | lth a b iha ihb =>
    intro c l v c' h i hi
    simp only [genRA, Option.bind_eq_bind, Option.bind_eq_some, bind] at h
    obtain ⟨⟨lc, lv, c1⟩, h1, h⟩ := h
    obtain ⟨⟨rc, rv, c2⟩, h2, h⟩ := h
    simp only [Option.some_inj, Prod.mk.injEq] at h
    obtain ⟨rfl, -, -⟩ := h
    simp only [List.append_assoc, List.mem_append] at hi
    rcases hi with hi | hi | hi
    · exact iha c lc lv c1 h1 i hi
    · exact ihb c1 rc rv c2 h2 i hi
    · fin_cases hi <;> trivial
  | neg a iha =>
    intro c l v c' h i hi
    simp only [genRA, Option.bind_eq_bind, Option.bind_eq_some, bind] at h
    obtain ⟨⟨ec, ev, c1⟩, h1, h⟩ := h
    simp only [Option.some_inj, Prod.mk.injEq] at h
    obtain ⟨rfl, -, -⟩ := h
    simp only [List.mem_append] at hi
    rcases hi with hi | hi
    · exact iha c ec ev c1 h1 i hi
    · fin_cases hi <;> trivial
  | notE a iha =>
    intro c l v c' h i hi
    simp only [genRA, Option.bind_eq_bind, Option.bind_eq_some, bind] at h
    obtain ⟨⟨ec, ev, c1⟩, h1, h⟩ := h
    simp only [Option.some_inj, Prod.mk.injEq] at h
    obtain ⟨rfl, -, -⟩ := h
    simp only [List.mem_append] at hi
    rcases hi with hi | hi
    · exact iha c ec ev c1 h1 i hi
    · fin_cases hi <;> trivial
  | letE x d b ihd ihb =>
    intro c l v c' h i hi
    simp only [genRA, Option.bind_eq_bind, Option.bind_eq_some, bind] at h
    obtain ⟨⟨dc, dv, c1⟩, h1, h⟩ := h
    obtain ⟨⟨bc, bv, c2⟩, h2, h⟩ := h
    simp only [Option.some_inj, Prod.mk.injEq] at h
    obtain ⟨rfl, -, -⟩ := h
    simp only [List.append_assoc, List.mem_append] at hi
    rcases hi with hi | hi | hi | hi
    · exact ihd c dc dv c1 h1 i hi
    · fin_cases hi <;> trivial
    · exact ihb (c1 + 1) bc bv c2 h2 i hi
    · fin_cases hi <;> trivial
  | andE a b iha ihb => intro c l v c' h; cases h
  | orE a b iha ihb => intro c l v c' h; cases h
  | mod a b iha ihb => intro c l v c' h; cases h
  | ifThenElse a b d iha ihb ihd => intro c l v c' h; cases h
  | fn x b ihb => intro c l v c' h; cases h
  | app f a ihf iha => intro c l v c' h; cases h

theorem inv_init : Inv RAState.init (initEnv 1000) (initEnv 1000) (fun _ => 0) := by
  refine ⟨fun u _ => rfl, fun u _ => rfl, ?_, ?_, ?_, ?_⟩
  · intro u s hs
    simp [RAState.init] at hs
  · intro u s hs
    simp [RAState.init] at hs
  · intro u w s hs hw
    simp [RAState.init] at hs
  · intro u hu hsome
    have hsp : u ≠ "sp" := fun h => hu (by rw [h]; simp [defaultRegs])
    simp [initEnv, hsp] at hsome

/-- C1 counterexample: the code generator on the bare reference `Var "sp"`
produces the empty program with designated result variable `sp`; the
symbolic machine yields 1000 for it (the initial stack pointer), allocation
succeeds and the physical run succeeds, but reading the result through the
allocator's `get_val` fails (`ValueError`), because reserved registers are
never given a memory slot — so the two executions do not yield the same
final value for the designated result variable. -/
theorem alloc_reserved_result_diverges :
    genRA (.var "sp") 0 = some ([], "sp", 0) ∧
    compileRunRA (.var "sp") = some 1000 ∧
    optimize ⟨[], initEnv 1000, fun _ => 0, 0⟩ =
      some (⟨[], initEnv 1000, fun _ => 0, 0⟩, RAState.init) ∧
    run [] 0 ⟨initEnv 1000, fun _ => 0, 0⟩ = some ⟨initEnv 1000, fun _ => 0, 0⟩ ∧
    raGetVal RAState.init (fun _ => 0) "sp" = none := by
  exact ⟨rfl, rfl, rfl, rfl, rfl⟩

/-- C1 (amended): for every program produced by the register-allocation
code generator whose designated result variable is not a reserved register,
if the symbolic (unallocated) run yields a value for it, then allocation
succeeds, the allocated program runs to completion on the physical machine
from a reset variable table, and the allocator's `get_val` read of the
result variable through its memory slot yields the same value. -/
theorem allocation_preserves_semantics (e : Expr) (l : List Instr) (v : String) (c : Nat)
    (hgen : genRA e 0 = some (l, v, c)) (hv : v ∉ defaultRegs) (x : Int)
    (hrun : compileRunRA e = some x) :
    ∃ P' st' sA,
      optimize ⟨l, initEnv 1000, fun _ => 0, 0⟩ = some (P', st') ∧
      run P'.insts P'.insts.length ⟨initEnv 1000, fun _ => 0, 0⟩ = some sA ∧
      raGetVal st' sA.mem v = some x := by
  have hops := genRA_SOp e 0 l v c hgen
  have hncS : ∀ i ∈ l, i.nonCtrl := fun i hi => SOp_nonCtrl i (hops i hi)
  unfold compileRunRA at hrun
  rw [hgen] at hrun
  simp only [Option.some_bind] at hrun
  rw [run_eq_runS l l 0 (List.drop_zero l) hncS (initEnv 1000) (fun _ => 0)] at hrun
  cases hS : runS l ⟨initEnv 1000, fun _ => 0⟩ with
  | none =>
    rw [hS] at hrun
    simp at hrun
  | some tS =>
    rw [hS] at hrun
    simp only [Option.map_some', Option.some_bind] at hrun
    obtain ⟨code, st', envA', memA', halloc, hrunA, hInvF, hmemF, hncA⟩ :=
      allocList_sim 0 l RAState.init (initEnv 1000) (fun _ => 0) (initEnv 1000)
        (fun _ => 0) inv_init hops tS hS
    refine ⟨{ insts := code, env := initEnv 1000, mem := fun _ => 0, pc := 0 }, st',
      ⟨envA', memA', 0 + code.length⟩, ?_, ?_, ?_⟩
    · simp [optimize, halloc]
    · show run code code.length ⟨initEnv 1000, fun _ => 0, 0⟩ =
        some ⟨envA', memA', 0 + code.length⟩
      rw [run_eq_runS code code 0 (List.drop_zero code) hncA (initEnv 1000) (fun _ => 0),
        hrunA]
      rfl
    · have hvx0 : v ≠ "x0" := fun h => hv (by rw [h]; simp [defaultRegs])
      have henv : tS.env v = some x := by
        rw [getVal, if_neg hvx0] at hrun
        exact hrun
      obtain ⟨hRegs, hDef, hVars, hBound, hInj, hCover⟩ := hInvF
      obtain ⟨s, hs⟩ := Option.isSome_iff_exists.mp (hCover v hv (by simp [henv]))
      obtain ⟨z, hz, hm⟩ := hVars v s hs
      rw [henv] at hz
      obtain rfl : x = z := Option.some.inj hz
      simp [raGetVal, hs, hm]

/-- C1 witness: the amended theorem applied to `3 + 4`, whose generated
program computes 7 into `v3`. -/
theorem allocation_preserves_semantics_witness :
    genRA (.add (.num 3) (.num 4)) 0 =
      some ([.addi "v1" "x0" 3, .addi "v2" "x0" 4, .add "v3" "v1" "v2"], "v3", 3) ∧
    "v3" ∉ defaultRegs ∧
    compileRunRA (.add (.num 3) (.num 4)) = some 7 ∧
    ∃ P' st' sA,
      optimize ⟨[.addi "v1" "x0" 3, .addi "v2" "x0" 4, .add "v3" "v1" "v2"],
        initEnv 1000, fun _ => 0, 0⟩ = some (P', st') ∧
      run P'.insts P'.insts.length ⟨initEnv 1000, fun _ => 0, 0⟩ = some sA ∧
      raGetVal st' sA.mem "v3" = some 7 :=
  ⟨rfl, by simp [defaultRegs], rfl,
    allocation_preserves_semantics (.add (.num 3) (.num 4))
      [.addi "v1" "x0" 3, .addi "v2" "x0" 4, .add "v3" "v1" "v2"] "v3" 3 rfl
      (by simp [defaultRegs]) 7 rfl⟩

end BuildingACompiler
